import Mathlib

/-!
Verification development for the herculens/jaxtronomy image-synthesis pipeline.

This file shallowly embeds the parts of the repository needed to settle the
frozen claims about it:

* `jaxtronomy/Inference/parameters.py` (class `Parameters`): the parameter
  codec (`args2kwargs` / `kwargs2args`), the prior builder
  (`kwargs2args_prior` / `_set_params_prior`) and the log-prior evaluators
  (`log_prior`, `log_prior_nojit`).
* `herculens/MassModel/mass_model_base.py` (class `MassModelBase`):
  construction of the profile list, the pixelated-index cache and the
  in-place normalisation of the model list (`create_model_list`).
* `jaxtronomy/LightModel/light_model_base.py` (`surface_brightness`).
* `herculens/LensImage/lens_image.py` (`simulation`).
* `herculens/Inference/ProbModel/numpyro_util.py` (`unconstrain_reparam`).
* `herculens/Util/linear_util.py` (`build_bilinear_interpol_matrix`).

Numbers are modelled by `ℚ` (exact arithmetic standing for the float values
manipulated by the code); `np.nan` sentinels are modelled by `none : Option ℚ`,
with IEEE comparison semantics (every comparison against NaN is false).
Fallible code is modelled in the `Except String` monad.
-/

namespace Herculens

/-! ## Parameter values

`PValue` models the values stored in the user-facing keyword dictionaries of
`Parameters`: python floats (`scalar`), 1D numpy arrays such as the fixed
`x_coords`/`y_coords` (`arr1`), and 2D arrays such as a pixelated profile's
`image` block (`arr2`). -/

inductive PValue where
  | scalar (v : ℚ)
  | arr1 (xs : List ℚ)
  | arr2 (m : List (List ℚ))
  deriving Repr, DecidableEq

/-- A python `dict` keyed by parameter names, as an association list whose
lookup returns the most recently assigned value for a key. -/
abbrev KwDict := List (String × PValue)

/-- Python dict assignment `d[k] = v`: replaces the binding if the key is
present, otherwise appends it. -/
def dictSet (d : KwDict) (k : String) (v : PValue) : KwDict :=
  match d with
  | [] => [(k, v)]
  | (k', v') :: rest => if k' = k then (k, v) :: rest else (k', v') :: dictSet rest k v

/-- `len()` of a `PValue`; calling `len` on a python float raises `TypeError`. -/
def pvLen : PValue → Except String ℕ
  | .scalar _ => .error "TypeError: object of type float has no len"
  | .arr1 xs => .ok xs.length
  | .arr2 m => .ok m.length

/-- JAX array indexing `args[i]`: out-of-bounds indices are clamped (JAX does
not raise on scalar gather out of bounds). All uses below are in bounds. -/
def jget (l : List ℚ) (i : ℕ) : ℚ := l.getD (min i (l.length - 1)) 0

/-- JAX slicing `args[i:i+num]` (a short slice is returned when the array is
exhausted, as in numpy/JAX). -/
def jslice (l : List ℚ) (i num : ℕ) : List ℚ := (l.drop i).take num

/-- Split a flat list into `r` rows of `c` entries each (row-major), the
core of `reshape(n_pix_x, n_pix_y)`. -/
def chunkRows : ℕ → ℕ → List ℚ → List (List ℚ)
  | 0, _, _ => []
  | r + 1, c, l => l.take c :: chunkRows r c (l.drop c)

/-- `array.reshape(r, c)`: fails unless the size matches exactly. -/
def reshape2 (l : List ℚ) (r c : ℕ) : Except String (List (List ℚ)) :=
  if l.length = r * c then .ok (chunkRows r c l) else .error "ValueError: cannot reshape"

/-! ## The `Parameters` codec (jaxtronomy/Inference/parameters.py)

`ParametersM` carries the construction-time data of the python class used by
the codec: the three profile-type lists of `kwargs_model`, the three
fixed-parameter lists of `kwargs_fixed`, and the parameter-name table
`_get_param_names_for_model` (a pure lookup into the profile classes'
`param_names`, abstracted as a function since most profile classes live
outside the embedded sources; e.g. `Shear.param_names =
["gamma1", "gamma2", "ra_0", "dec_0"]`). -/

structure ParametersM where
  lens_model_list : List String
  source_model_list : List String
  lens_light_model_list : List String
  fixed_lens : List KwDict
  fixed_source : List KwDict
  fixed_lens_light : List KwDict
  getParamNames : String → String → List String

/-- Inner loop of `Parameters._get_params` over one profile's `param_names`,
accumulating the structured kwargs and the running flat index `i`. -/
def get_params_names (kwargsFixed : KwDict) (model : String) (args : List ℚ) :
    List String → KwDict → ℕ → Except String (KwDict × ℕ)
  | [], kwargs, i => .ok (kwargs, i)
  | name :: rest, kwargs, i =>
    match List.lookup name kwargsFixed with
    | none =>
      if model = "PIXELATED" then
        match List.lookup "x_coords" kwargsFixed, List.lookup "y_coords" kwargsFixed with
        | some xc, some yc => do
          let nPixX ← pvLen xc
          let nPixY ← pvLen yc
          let numParam := nPixX * nPixY
          let img ← reshape2 (jslice args i numParam) nPixX nPixY
          get_params_names kwargsFixed model args rest
            (dictSet kwargs "image" (.arr2 img)) (i + numParam)
        | _, _ =>
          .error "ValueError: x_coords and y_coords all need to be fixed for PIXELATED models"
      else
        get_params_names kwargsFixed model args rest
          (dictSet kwargs name (.scalar (jget args i))) (i + 1)
    | some v => get_params_names kwargsFixed model args rest (dictSet kwargs name v) i

/-- Outer loop of `Parameters._get_params` over one model class's profile
list, pairing each profile with its fixed dict
(`self._kwargs_fixed[kwargs_key][k]`). -/
def get_params_models (getNames : String → String → List String) (key : String)
    (args : List ℚ) :
    List String → List KwDict → ℕ → Except String (List KwDict × ℕ)
  | [], _, i => .ok ([], i)
  | model :: ms, fixeds, i =>
    match fixeds with
    | [] => .error "IndexError: kwargs_fixed list too short"
    | fixed :: fs => do
      let (kwargs, i1) ← get_params_names fixed model args (getNames key model) [] i
      let (rest, i2) ← get_params_models getNames key args ms fs i1
      .ok (kwargs :: rest, i2)

/-- `Parameters.args2kwargs`: decode a flat vector into the three structured
kwargs lists (lens mass, source light, lens light), in that fixed order. -/
def args2kwargs (P : ParametersM) (args : List ℚ) :
    Except String (List KwDict × List KwDict × List KwDict) := do
  let (kwargsLens, i1) ←
    get_params_models P.getParamNames "kwargs_lens" args P.lens_model_list P.fixed_lens 0
  let (kwargsSource, i2) ←
    get_params_models P.getParamNames "kwargs_source" args P.source_model_list P.fixed_source i1
  let (kwargsLensLight, _) ←
    get_params_models P.getParamNames "kwargs_lens_light" args
      P.lens_light_model_list P.fixed_lens_light i2
  .ok (kwargsLens, kwargsSource, kwargsLensLight)

/-- Inner loop of `Parameters._set_params` over one profile's `param_names`:
emits the flat slots of the free parameters in declaration order. -/
def set_params_names (kwargsProfile kwargsFixed : KwDict) (model : String) :
    List String → Except String (List ℚ)
  | [] => .ok []
  | name :: rest =>
    match List.lookup name kwargsFixed with
    | none =>
      if model = "PIXELATED" then
        if name = "x_coords" ∨ name = "y_coords" then
          .error "ValueError: coords must be a fixed keyword argument for PIXELATED models"
        else
          match List.lookup "image" kwargsProfile with
          | some (.arr2 m) => do
            let rest1 ← set_params_names kwargsProfile kwargsFixed model rest
            .ok (m.flatten ++ rest1)
          | some _ => .error "AttributeError: object has no attribute flatten"
          | none => .error "KeyError: image"
      else
        match List.lookup name kwargsProfile with
        | some (.scalar v) => do
          let rest1 ← set_params_names kwargsProfile kwargsFixed model rest
          .ok (v :: rest1)
        | some _ => .error "TypeError: expected a scalar parameter value"
        | none => .error "KeyError: missing parameter"
    | some _ => set_params_names kwargsProfile kwargsFixed model rest

/-- Outer loop of `Parameters._set_params` over one model class. -/
def set_params_models (getNames : String → String → List String) (key : String) :
    List String → List KwDict → List KwDict → Except String (List ℚ)
  | [], _, _ => .ok []
  | model :: ms, kwargsList, fixeds =>
    match kwargsList, fixeds with
    | kwargsProfile :: ks, fixed :: fs => do
      let head ← set_params_names kwargsProfile fixed model (getNames key model)
      let tail ← set_params_models getNames key ms ks fs
      .ok (head ++ tail)
    | _, _ => .error "IndexError: kwargs list too short"

/-- `Parameters.kwargs2args`: encode structured kwargs back into a flat
vector, traversing the three model classes in the same fixed order as
`args2kwargs`. -/
def kwargs2args (P : ParametersM) (kw : List KwDict × List KwDict × List KwDict) :
    Except String (List ℚ) := do
  let argsLens ←
    set_params_models P.getParamNames "kwargs_lens" P.lens_model_list kw.1 P.fixed_lens
  let argsSource ←
    set_params_models P.getParamNames "kwargs_source" P.source_model_list kw.2.1 P.fixed_source
  let argsLensLight ←
    set_params_models P.getParamNames "kwargs_lens_light" P.lens_light_model_list kw.2.2
      P.fixed_lens_light
  .ok (argsLens ++ argsSource ++ argsLensLight)

/-- Inner loop of `Parameters._set_names`: one display label per free scalar
slot, `a_<flatindex>` labels for a pixelated block. Its length is the flat
vector length contributed by the profile. -/
def set_names_names (kwargsFixed : KwDict) (model : String) :
    List String → Except String (List String)
  | [] => .ok []
  | name :: rest =>
    match List.lookup name kwargsFixed with
    | none =>
      if model = "PIXELATED" then
        match List.lookup "x_coords" kwargsFixed, List.lookup "y_coords" kwargsFixed with
        | some xc, some yc => do
          let nPixX ← pvLen xc
          let nPixY ← pvLen yc
          let tail ← set_names_names kwargsFixed model rest
          .ok ((List.range (nPixX * nPixY)).map (fun j => "a_" ++ toString j) ++ tail)
        | _, _ => .error "KeyError: x_coords"
      else do
        let tail ← set_names_names kwargsFixed model rest
        .ok (name :: tail)
    | some _ => set_names_names kwargsFixed model rest

/-- Outer loop of `Parameters._set_names` over one model class. -/
def set_names_models (getNames : String → String → List String) (key : String) :
    List String → List KwDict → Except String (List String)
  | [], _ => .ok []
  | model :: ms, fixeds =>
    match fixeds with
    | [] => .error "IndexError: kwargs_fixed list too short"
    | fixed :: fs => do
      let head ← set_names_names fixed model (getNames key model)
      let tail ← set_names_models getNames key ms fs
      .ok (head ++ tail)

/-- `Parameters.names`: display labels for the whole flat vector; its length
is the flat vector's length (`num_parameters`). -/
def namesAll (P : ParametersM) : Except String (List String) := do
  let n1 ← set_names_models P.getParamNames "kwargs_lens" P.lens_model_list P.fixed_lens
  let n2 ← set_names_models P.getParamNames "kwargs_source" P.source_model_list P.fixed_source
  let n3 ← set_names_models P.getParamNames "kwargs_lens_light" P.lens_light_model_list
    P.fixed_lens_light
  .ok (n1 ++ n2 ++ n3)

/-! ## Prior builder (`Parameters._set_params_prior` / `kwargs2args_prior`)

A prior declaration for one parameter is the python tuple
`(prior_type, value1, value2)`; for a `uniform` prior the values are the
lower/upper bounds (per-pixel 2D arrays for a pixelated `image` block), for a
`gaussian` prior the mean and width. Entries of the built arrays are
`Option ℚ`, with `none` modelling the `np.nan` sentinel (`Option String` and
`none` for the `None` entries of the `types` list). -/

abbrev PriorDecl := String × PValue × PValue

abbrev PriorDict := List (String × PriorDecl)

/-- The five per-slot arrays built by `_set_params_prior`, index-aligned with
the flat parameter vector: prior kind, lower, upper, mean, width. -/
structure PriorArrays where
  types : List (Option String)
  lowers : List (Option ℚ)
  uppers : List (Option ℚ)
  means : List (Option ℚ)
  widths : List (Option ℚ)
  deriving Repr, DecidableEq

def PriorArrays.append (a b : PriorArrays) : PriorArrays :=
  ⟨a.types ++ b.types, a.lowers ++ b.lowers, a.uppers ++ b.uppers,
    a.means ++ b.means, a.widths ++ b.widths⟩

/-- A float-valued prior bound/mean/width; a non-scalar here would make the
final `np.array(...)` aggregation fail, which we surface as an error. -/
def pvScalar : PValue → Except String ℚ
  | .scalar v => .ok v
  | _ => .error "ValueError: non-scalar prior entry"

/-- `.flatten().tolist()` of a per-pixel bound array. -/
def pvFlatten : PValue → Except String (List ℚ)
  | .arr2 m => .ok m.flatten
  | _ => .error "AttributeError: object has no attribute flatten"

/-- Inner loop of `Parameters._set_params_prior` over one profile's
`param_names`. Mirrors the source line for line; in particular
`prior_type = kwargs_profile[name][0]` is evaluated *before* the
`name not in kwargs_profile` test, so a free parameter with no declared prior
raises `KeyError` (the membership test on the next line is dead code for that
case). -/
def set_params_prior_names (kwargsProfile : PriorDict) (kwargsFixed : KwDict)
    (model : String) : List String → Except String PriorArrays
  | [] => .ok ⟨[], [], [], [], []⟩
  | name :: rest =>
    match List.lookup name kwargsFixed with
    | some _ => set_params_prior_names kwargsProfile kwargsFixed model rest
    | none =>
      match List.lookup name kwargsProfile with
      | none => .error "KeyError: no prior declared for free parameter"
      | some decl =>
        let priorType := decl.1
        if priorType ≠ "uniform" ∧ priorType ≠ "gaussian" then do
          let tail ← set_params_prior_names kwargsProfile kwargsFixed model rest
          .ok (PriorArrays.append ⟨[none], [none], [none], [none], [none]⟩ tail)
        else
          if priorType = "uniform" then
            if model = "PIXELATED" then
              if name = "x_coords" ∨ name = "y_coords" then
                .error "ValueError: coords must be a fixed keyword argument for PIXELATED models"
              else
                match List.lookup "x_coords" kwargsFixed, List.lookup "y_coords" kwargsFixed with
                | some xc, some yc =>
                  match List.lookup "image" kwargsProfile with
                  | none => .error "KeyError: image"
                  | some imgDecl => do
                    let nPixX ← pvLen xc
                    let nPixY ← pvLen yc
                    let numParam := nPixX * nPixY
                    let los ← pvFlatten imgDecl.2.1
                    let his ← pvFlatten imgDecl.2.2
                    let tail ← set_params_prior_names kwargsProfile kwargsFixed model rest
                    .ok (PriorArrays.append
                      ⟨List.replicate numParam (some "uniform"),
                        los.map some, his.map some,
                        List.replicate numParam none, List.replicate numParam none⟩ tail)
                | _, _ => .error "KeyError: x_coords"
            else do
              let lo ← pvScalar decl.2.1
              let hi ← pvScalar decl.2.2
              let tail ← set_params_prior_names kwargsProfile kwargsFixed model rest
              .ok (PriorArrays.append
                ⟨[some "uniform"], [some lo], [some hi], [none], [none]⟩ tail)
          else
            if model = "PIXELATED" then
              .error "ValueError: gaussian prior for PIXELATED model is not supported"
            else do
              let mean ← pvScalar decl.2.1
              let width ← pvScalar decl.2.2
              let tail ← set_params_prior_names kwargsProfile kwargsFixed model rest
              .ok (PriorArrays.append
                ⟨[some "gaussian"], [none], [none], [some mean], [some width]⟩ tail)

/-- Outer loop of `Parameters._set_params_prior` over one model class. -/
def set_params_prior_models (getNames : String → String → List String) (key : String) :
    List String → List PriorDict → List KwDict → Except String PriorArrays
  | [], _, _ => .ok ⟨[], [], [], [], []⟩
  | model :: ms, priors, fixeds =>
    match priors, fixeds with
    | prior :: ps, fixed :: fs => do
      let head ← set_params_prior_names prior fixed model (getNames key model)
      let tail ← set_params_prior_models getNames key ms ps fs
      .ok (PriorArrays.append head tail)
    | _, _ => .error "IndexError: kwargs list too short"

/-- `Parameters.kwargs2args_prior`: build the five index-aligned prior arrays
by the same three-class traversal as the codec. -/
def kwargs2args_prior (P : ParametersM)
    (kwPrior : List PriorDict × List PriorDict × List PriorDict) :
    Except String PriorArrays := do
  let a1 ← set_params_prior_models P.getParamNames "kwargs_lens" P.lens_model_list
    kwPrior.1 P.fixed_lens
  let a2 ← set_params_prior_models P.getParamNames "kwargs_source" P.source_model_list
    kwPrior.2.1 P.fixed_source
  let a3 ← set_params_prior_models P.getParamNames "kwargs_lens_light" P.lens_light_model_list
    kwPrior.2.2 P.fixed_lens_light
  .ok (PriorArrays.append (PriorArrays.append a1 a2) a3)

/-! ## Log-prior evaluators

`none : Option ℚ` models `np.nan`; following IEEE semantics, every comparison
against NaN is false. -/

/-- `x < o` with NaN on the right. -/
def oLT (x : ℚ) (o : Option ℚ) : Bool :=
  match o with
  | some b => decide (x < b)
  | none => false

/-- `x > o` with NaN on the right. -/
def oGT (x : ℚ) (o : Option ℚ) : Bool :=
  match o with
  | some b => decide (b < x)
  | none => false

/-- `o ≤ x` with NaN on the left. -/
def oLE (o : Option ℚ) (x : ℚ) : Bool :=
  match o with
  | some b => decide (b ≤ x)
  | none => false

/-- `x ≤ o` with NaN on the right. -/
def oLE' (x : ℚ) (o : Option ℚ) : Bool :=
  match o with
  | some b => decide (x ≤ b)
  | none => false

/-- `Parameters._bound_penalty = 1e10`. -/
def bound_penalty : ℚ := 10000000000

/-- The gaussian contribution `-0.5 * ((args[i] - means[i]) / widths[i]) ** 2`.
The defaulting of the `np.nan` sentinels is irrelevant: both evaluators only
use this expression, and the arrays built by `kwargs2args_prior` carry real
mean/width values on every gaussian slot. -/
def gaussTerm (A : PriorArrays) (args : List ℚ) (i : ℕ) : ℚ :=
  -(1/2) * ((jget args i - ((A.means.getD i none).getD 0))
    / ((A.widths.getD i none).getD 0)) ^ 2

/-- `Parameters.log_prior` (the jit-compiled variant): per index, a
`lax.cond` gaussian term plus two independent `lax.cond` bound penalties
(one for `args[i] < lowers[i]`, one for `args[i] > uppers[i]`).
`n` is `self.num_parameters`. -/
def log_prior (A : PriorArrays) (n : ℕ) (args : List ℚ) : ℚ :=
  (List.range n).foldl (fun logP i =>
    let gaussianPrior := A.types.getD i none = some "gaussian"
    let uniformPrior := A.types.getD i none = some "uniform"
    let t1 := if gaussianPrior then gaussTerm A args i else 0
    let t2 := if uniformPrior then
        (if oLT (jget args i) (A.lowers.getD i none) then -bound_penalty else 0) else 0
    let t3 := if uniformPrior then
        (if oGT (jget args i) (A.uppers.getD i none) then -bound_penalty else 0) else 0
    logP + t1 + t2 + t3) 0

/-- `Parameters.log_prior_nojit` (the reference variant): gaussian term, or a
single bound penalty when `not (lowers[i] <= args[i] <= uppers[i])`. -/
def log_prior_nojit (A : PriorArrays) (n : ℕ) (args : List ℚ) : ℚ :=
  (List.range n).foldl (fun logP i =>
    if A.types.getD i none = some "gaussian" then
      logP + gaussTerm A args i
    else if A.types.getD i none = some "uniform"
        ∧ ¬(oLE (A.lowers.getD i none) (jget args i)
            ∧ oLE' (jget args i) (A.uppers.getD i none)) then
      logP + -bound_penalty
    else logP) 0

/-! ## Concrete configurations used by the prior claims -/

/-- A model specification with a single free scalar parameter `amp` on one
source profile (profile type `FOO` is never validated by the codec; only the
name table matters). -/
def Pone : ParametersM :=
  ⟨[], ["FOO"], [], [], [[]], [], fun _ _ => ["amp"]⟩

/-- Prior arrays produced for `amp` with a declared `uniform` prior on
`[0, 1]`. -/
def arraysU01 : PriorArrays :=
  ⟨[some "uniform"], [some 0], [some 1], [none], [none]⟩

/-- Prior arrays produced for `amp` with inverted `uniform` bounds `(1, 0)`. -/
def arraysUInv : PriorArrays :=
  ⟨[some "uniform"], [some 1], [some 0], [none], [none]⟩

/-- A model specification with one pixelated source profile on a 2×2 fixed
grid (4 flat slots). -/
def Ppix : ParametersM :=
  ⟨[], ["PIXELATED"], [], [], [[("x_coords", .arr1 [0, 1]), ("y_coords", .arr1 [0, 1])]], [],
    fun _ _ => ["image", "x_coords", "y_coords"]⟩

/-! ## Generic fold-to-sum lemma -/

lemma foldl_add_range (f : ℕ → ℚ) (n : ℕ) :
    (List.range n).foldl (fun a i => a + f i) 0 = ∑ i ∈ Finset.range n, f i := by
  induction n with
  | zero => simp
  | succ n ih =>
    rw [List.range_succ, List.foldl_append, ih, Finset.sum_range_succ]
    simp

/-- The jit variant's per-index contribution (the three `lax.cond` terms). -/
def jitContribution (A : PriorArrays) (args : List ℚ) (i : ℕ) : ℚ :=
  (if A.types.getD i none = some "gaussian" then gaussTerm A args i else 0)
  + (if A.types.getD i none = some "uniform" then
      (if oLT (jget args i) (A.lowers.getD i none) then -bound_penalty else 0) else 0)
  + (if A.types.getD i none = some "uniform" then
      (if oGT (jget args i) (A.uppers.getD i none) then -bound_penalty else 0) else 0)

/-- The nojit variant's per-index contribution. -/
def nojitContribution (A : PriorArrays) (args : List ℚ) (i : ℕ) : ℚ :=
  if A.types.getD i none = some "gaussian" then gaussTerm A args i
  else if A.types.getD i none = some "uniform"
      ∧ ¬(oLE (A.lowers.getD i none) (jget args i)
          ∧ oLE' (jget args i) (A.uppers.getD i none)) then -bound_penalty
  else 0

lemma log_prior_eq_sum (A : PriorArrays) (n : ℕ) (args : List ℚ) :
    log_prior A n args = ∑ i ∈ Finset.range n, jitContribution A args i := by
  rw [← foldl_add_range (jitContribution A args) n]
  unfold log_prior jitContribution
  congr 1
  funext a i
  ring

lemma log_prior_nojit_eq_sum (A : PriorArrays) (n : ℕ) (args : List ℚ) :
    log_prior_nojit A n args = ∑ i ∈ Finset.range n, nojitContribution A args i := by
  rw [← foldl_add_range (nojitContribution A args) n]
  unfold log_prior_nojit nojitContribution
  congr 1
  funext a i
  split_ifs <;> ring

/-- The per-index rule exactly as the claim states it: a gaussian slot
contributes `-0.5*((x-mean)/width)^2`, a uniform slot contributes `-1e10`
outside `[lower, upper]` and `0` inside, any other slot contributes `0`. -/
def claimContribution (A : PriorArrays) (args : List ℚ) (i : ℕ) : ℚ :=
  if A.types.getD i none = some "gaussian" then gaussTerm A args i
  else if A.types.getD i none = some "uniform" then
    match A.lowers.getD i none, A.uppers.getD i none with
    | some lo, some hi =>
        if jget args i < lo ∨ hi < jget args i then -bound_penalty else 0
    | _, _ => 0
  else 0

/-- C3: `log_prior_nojit` is the sum of the claimed per-index contributions
(on arrays whose uniform slots carry real bounds, as `kwargs2args_prior`
always produces), and on the single-parameter uniform-[0,1] configuration --
reached through `kwargs2args_prior` -- it evaluates to `0` at `x = 0.5` and to
exactly `-1e10` at `x = -1` and at `x = 2`. -/
theorem C3_log_prior_nojit_spec :
    (∀ (A : PriorArrays) (n : ℕ) (args : List ℚ),
      (∀ i < n, A.types.getD i none = some "uniform" →
        (A.lowers.getD i none).isSome ∧ (A.uppers.getD i none).isSome) →
      log_prior_nojit A n args = ∑ i ∈ Finset.range n, claimContribution A args i)
    ∧ kwargs2args_prior Pone ([], [[("amp", ("uniform", .scalar 0, .scalar 1))]], [])
        = .ok arraysU01
    ∧ log_prior_nojit arraysU01 1 [1/2] = 0
    ∧ log_prior_nojit arraysU01 1 [-1] = -10000000000
    ∧ log_prior_nojit arraysU01 1 [2] = -10000000000 := by
  refine ⟨?_, by rfl, ?_, ?_, ?_⟩
  case _ =>
    intro A n args hU
    rw [log_prior_nojit_eq_sum]
    refine Finset.sum_congr rfl ?_
    intro i hi
    rw [Finset.mem_range] at hi
    unfold nojitContribution claimContribution
    rcases hty : A.types.getD i none with _ | s
    · simp
    rcases eq_or_ne s "gaussian" with hg | hg
    · subst hg; simp
    rcases eq_or_ne s "uniform" with hu | hu
    · subst hu
      obtain ⟨hlo, hhi⟩ := hU i hi hty
      rcases hlo' : A.lowers.getD i none with _ | lo
      · rw [hlo'] at hlo; simp at hlo
      rcases hhi' : A.uppers.getD i none with _ | hi2
      · rw [hhi'] at hhi; simp at hhi
      have hne : ¬("uniform" : String) = "gaussian" := by decide
      simp only [Option.some.injEq, hne, if_false, true_and, oLE, oLE',
        decide_eq_true_eq, not_and_or, not_le]
      simp
    · simp [hg, hu]
  all_goals
    norm_num [log_prior_nojit, List.range_succ, jget, oLE, oLE', arraysU01,
      bound_penalty, gaussTerm, show ¬"uniform" = "gaussian" by decide]

/-- C3 witness: the general conjunct applied at the concrete uniform-[0,1]
configuration. -/
theorem C3_log_prior_nojit_spec_witness :
    log_prior_nojit arraysU01 1 [1/2]
      = ∑ i ∈ Finset.range 1, claimContribution arraysU01 [1/2] i :=
  C3_log_prior_nojit_spec.1 arraysU01 1 [1/2] (by decide)

/-- C4 counterexample: with inverted uniform bounds `(lower, upper) = (1, 0)`
(accepted unchecked at construction), the jit variant applies the bound
penalty twice (`-2e10`) while the reference variant applies it once
(`-1e10`), so the two variants disagree. -/
theorem C4_counterexample :
    kwargs2args_prior Pone ([], [[("amp", ("uniform", .scalar 1, .scalar 0))]], [])
      = .ok arraysUInv
    ∧ log_prior arraysUInv 1 [1/2] = -20000000000
    ∧ log_prior_nojit arraysUInv 1 [1/2] = -10000000000
    ∧ log_prior arraysUInv 1 [1/2] ≠ log_prior_nojit arraysUInv 1 [1/2] := by
  have h1 : log_prior arraysUInv 1 [1/2] = -20000000000 := by
    norm_num [log_prior, List.range_succ, jget, oLT, oGT, arraysUInv, bound_penalty,
      gaussTerm, show ¬"uniform" = "gaussian" by decide]
  have h2 : log_prior_nojit arraysUInv 1 [1/2] = -10000000000 := by
    norm_num [log_prior_nojit, List.range_succ, jget, oLE, oLE', arraysUInv, bound_penalty,
      gaussTerm, show ¬"uniform" = "gaussian" by decide]
  refine ⟨by rfl, h1, h2, ?_⟩
  rw [h1, h2]
  norm_num

/-- With ordered bounds, two one-sided penalties equal the single two-sided
penalty of the reference variant. -/
lemma uniform_contrib_eq (x lo hi : ℚ) (hord : lo ≤ hi) :
    ((if x < lo then -bound_penalty else (0:ℚ)) + if hi < x then -bound_penalty else 0)
      = if ¬(lo ≤ x ∧ x ≤ hi) then -bound_penalty else 0 := by
  rcases lt_or_le x lo with c1 | c1
  · rw [if_pos c1, if_neg (by linarith), if_pos (by push_neg; intro h; linarith)]
    ring
  · rcases le_or_lt x hi with c2 | c2
    · rw [if_neg (by linarith), if_neg (by linarith), if_neg (not_not_intro ⟨c1, c2⟩)]
      ring
    · rw [if_neg (by linarith), if_pos c2,
        if_pos (fun h => absurd h.2 (not_le.mpr c2))]
      ring

/-- C4 (amended): on every prior configuration whose uniform slots carry
ordered real bounds (`lower ≤ upper`), `log_prior` and `log_prior_nojit`
agree on every input vector. -/
theorem C4_amended (A : PriorArrays) (n : ℕ) (args : List ℚ)
    (h : ∀ i < n, A.types.getD i none = some "uniform" →
      ∃ lo hi, A.lowers.getD i none = some lo ∧ A.uppers.getD i none = some hi ∧ lo ≤ hi) :
    log_prior A n args = log_prior_nojit A n args := by
  rw [log_prior_eq_sum, log_prior_nojit_eq_sum]
  refine Finset.sum_congr rfl ?_
  intro i hi
  rw [Finset.mem_range] at hi
  unfold jitContribution nojitContribution
  rcases hty : A.types.getD i none with _ | s
  · simp
  rcases eq_or_ne s "gaussian" with hg | hg
  · subst hg; simp
  rcases eq_or_ne s "uniform" with hu | hu
  · subst hu
    obtain ⟨lo, hi2, hlo, hhi, hord⟩ := h i hi hty
    have hne : ¬("uniform" : String) = "gaussian" := by decide
    simp only [hlo, hhi, oLT, oGT, oLE, oLE', Option.some.injEq, hne,
      if_false, true_and, decide_eq_true_eq, zero_add]
    exact uniform_contrib_eq (jget args i) lo hi2 hord
  · simp [hg, hu]

/-- C4 witness: the amended equivalence at the uniform-[0,1] configuration
and `x = 2`. -/
theorem C4_amended_witness :
    log_prior arraysU01 1 [2] = log_prior_nojit arraysU01 1 [2] :=
  C4_amended arraysU01 1 [2] (by
    intro i hi _
    interval_cases i
    exact ⟨0, 1, rfl, rfl, by norm_num⟩)

/-- C2 (code bug): a free parameter with no declared prior makes
`_set_params_prior` raise `KeyError` (the source reads
`kwargs_profile[name][0]` before testing `name not in kwargs_profile`)
instead of filling a sentinel slot; and a pixelated block whose declared
prior kind is unsupported gets a single sentinel slot for its whole
4-pixel block, misaligning the arrays with the flat vector. -/
theorem C2_prior_builder_failure :
    kwargs2args_prior Pone ([], [[]], [])
      = .error "KeyError: no prior declared for free parameter"
    ∧ (∃ A, kwargs2args_prior Ppix
        ([], [[("image", ("exponential", .scalar 0, .scalar 0))]], []) = .ok A
        ∧ A.types.length = 1)
    ∧ (∃ ns, namesAll Ppix = .ok ns ∧ ns.length = 4) := by
  exact ⟨by rfl, ⟨⟨[none], [none], [none], [none], [none]⟩, by rfl, by rfl⟩,
    ⟨["a_0", "a_1", "a_2", "a_3"], by rfl, by rfl⟩⟩

/-! ## C1: round-trip of the parameter codec -/

lemma except_bind_ok {α β : Type} {x : Except String α} {f : α → Except String β} {b : β}
    (h : (x >>= f) = .ok b) : ∃ a, x = .ok a ∧ f a = .ok b := by
  cases x with
  | error e => exact absurd h (by simp [Bind.bind, Except.bind])
  | ok a => exact ⟨a, rfl, h⟩

lemma lookup_dictSet_self (d : KwDict) (k : String) (v : PValue) :
    List.lookup k (dictSet d k v) = some v := by
  induction d with
  | nil => simp [dictSet, List.lookup]
  | cons kv rest ih =>
    obtain ⟨k', v'⟩ := kv
    by_cases h : k' = k
    · subst h
      simp [dictSet, List.lookup]
    · simp only [dictSet, if_neg h, List.lookup]
      rw [show (k == k') = false by simp [Ne.symm h]]
      exact ih

lemma lookup_dictSet_ne (d : KwDict) (k k' : String) (v : PValue) (h : k' ≠ k) :
    List.lookup k' (dictSet d k v) = List.lookup k' d := by
  induction d with
  | nil =>
    simp only [dictSet, List.lookup]
    rw [show (k' == k) = false by simp [h]]
  | cons kv rest ih =>
    obtain ⟨k1, v1⟩ := kv
    by_cases h1 : k1 = k
    · subst h1
      simp only [dictSet, if_pos rfl, List.lookup]
      rw [show (k' == k1) = false by simp [h]]
    · simp only [dictSet, if_neg h1, List.lookup]
      by_cases h2 : k' = k1
      · rw [show (k' == k1) = true by simp [h2]]
      · rw [show (k' == k1) = false by simp [h2]]
        exact ih

/-- The decode loop only (re)binds keys drawn from `names`, except that for a
pixelated profile every free name writes the key `image`; unless every name of
the profile is fixed, a foreign key other than `image` keeps its binding. -/
lemma get_params_names_lookup_eq (fixed : KwDict) (model : String) (args : List ℚ)
    (names : List String) (kw0 kw : KwDict) (i j : ℕ) (key : String)
    (hrun : get_params_names fixed model args names kw0 i = .ok (kw, j))
    (hkey : key ∉ names)
    (hkey2 : model = "PIXELATED" →
      (∀ n ∈ names, (List.lookup n fixed).isSome) ∨ key ≠ "image") :
    List.lookup key kw = List.lookup key kw0 := by
  induction names generalizing kw0 i with
  | nil =>
    simp only [get_params_names, Except.ok.injEq, Prod.mk.injEq] at hrun
    rw [hrun.1]
  | cons name rest ih =>
    have hkeyr : key ∉ rest := fun h => hkey (List.mem_cons_of_mem _ h)
    have hkeyne : key ≠ name := fun h => hkey (h ▸ List.mem_cons_self _ _)
    simp only [get_params_names] at hrun
    rcases hf : List.lookup name fixed with _ | v
    · rw [hf] at hrun
      by_cases hm : model = "PIXELATED"
      · rw [if_pos hm] at hrun
        rcases hxc : List.lookup "x_coords" fixed with _ | xc <;> rw [hxc] at hrun
        · cases hrun
        rcases hyc : List.lookup "y_coords" fixed with _ | yc <;> rw [hyc] at hrun
        · cases hrun
        obtain ⟨nx, hnx, hrun⟩ := except_bind_ok hrun
        obtain ⟨ny, hny, hrun⟩ := except_bind_ok hrun
        obtain ⟨img, himg, hrun⟩ := except_bind_ok hrun
        have hkimg : key ≠ "image" := by
          rcases hkey2 hm with hall | hne
          · exact absurd (hall name (List.mem_cons_self _ _)) (by simp [hf])
          · exact hne
        rw [ih _ _ hrun hkeyr (fun hm2 => Or.inr hkimg)]
        exact lookup_dictSet_ne _ _ _ _ hkimg
      · rw [if_neg hm] at hrun
        rw [ih _ _ hrun hkeyr (fun hm2 => absurd hm2 hm)]
        exact lookup_dictSet_ne _ _ _ _ hkeyne
    · rw [hf] at hrun
      have hkey2' : model = "PIXELATED" →
          (∀ n ∈ rest, (List.lookup n fixed).isSome) ∨ key ≠ "image" := by
        intro hm
        rcases hkey2 hm with hall | hne
        · exact Or.inl (fun n hn => hall n (List.mem_cons_of_mem _ hn))
        · exact Or.inr hne
      rw [ih _ _ hrun hkeyr hkey2']
      exact lookup_dictSet_ne _ _ _ _ hkeyne

lemma chunkRows_flatten (r c : ℕ) (l : List ℚ) (h : l.length = r * c) :
    (chunkRows r c l).flatten = l := by
  induction r generalizing l with
  | zero =>
    have : l = [] := List.eq_nil_of_length_eq_zero (by omega)
    simp [chunkRows, this]
  | succ r ih =>
    simp only [chunkRows, List.flatten_cons]
    rw [ih (l.drop c) (by simp only [List.length_drop, h]; ring_nf; omega)]
    exact List.take_append_drop c l

lemma jget_lt (l : List ℚ) (i : ℕ) (h : i < l.length) : jget l i = l.getD i 0 := by
  unfold jget
  congr 1
  omega

lemma jslice_split (args : List ℚ) (i a b : ℕ) :
    jslice args i (a + b) = jslice args i a ++ jslice args (i + a) b := by
  unfold jslice
  rw [List.take_add, List.drop_drop]

lemma jslice_cons (args : List ℚ) (i b : ℕ) (h : i < args.length) :
    jslice args i (1 + b) = args.getD i 0 :: jslice args (i + 1) b := by
  unfold jslice
  rw [List.drop_eq_getElem_cons h, Nat.add_comm 1 b, List.take_succ_cons,
    List.getD_eq_getElem args 0 h]

lemma except_pure_bind {α β : Type} (a : α) (f : α → Except String β) :
    (Except.ok a >>= f : Except String β) = f a := rfl

/-! Branch equations for the three loops, used to drive the round-trip
induction. -/

lemma get_cons_fixed (fixed : KwDict) (model : String) (args : List ℚ)
    (name : String) (rest : List String) (kw : KwDict) (i : ℕ) (v : PValue)
    (hf : List.lookup name fixed = some v) :
    get_params_names fixed model args (name :: rest) kw i
      = get_params_names fixed model args rest (dictSet kw name v) i := by
  simp only [get_params_names, hf]

lemma get_cons_free_scalar (fixed : KwDict) (model : String) (args : List ℚ)
    (name : String) (rest : List String) (kw : KwDict) (i : ℕ)
    (hf : List.lookup name fixed = none) (hm : ¬model = "PIXELATED") :
    get_params_names fixed model args (name :: rest) kw i
      = get_params_names fixed model args rest
          (dictSet kw name (.scalar (jget args i))) (i + 1) := by
  simp only [get_params_names, hf, if_neg hm]

lemma get_cons_free_pix (fixed : KwDict) (args : List ℚ)
    (name : String) (rest : List String) (kw : KwDict) (i : ℕ)
    (xc yc : PValue) (nx ny : ℕ)
    (hf : List.lookup name fixed = none)
    (hxc : List.lookup "x_coords" fixed = some xc)
    (hyc : List.lookup "y_coords" fixed = some yc)
    (hnx : pvLen xc = .ok nx) (hny : pvLen yc = .ok ny) :
    get_params_names fixed "PIXELATED" args (name :: rest) kw i
      = (reshape2 (jslice args i (nx * ny)) nx ny) >>= fun img =>
          get_params_names fixed "PIXELATED" args rest
            (dictSet kw "image" (.arr2 img)) (i + nx * ny) := by
  simp only [get_params_names, hf, hxc, hyc, hnx, hny, except_pure_bind, if_pos rfl, if_true]

lemma set_cons_fixed (kwP fixed : KwDict) (model : String)
    (name : String) (rest : List String) (v : PValue)
    (hf : List.lookup name fixed = some v) :
    set_params_names kwP fixed model (name :: rest)
      = set_params_names kwP fixed model rest := by
  simp only [set_params_names, hf]

lemma set_cons_free_scalar (kwP fixed : KwDict) (model : String)
    (name : String) (rest : List String) (x : ℚ)
    (hf : List.lookup name fixed = none) (hm : ¬model = "PIXELATED")
    (hv : List.lookup name kwP = some (.scalar x)) :
    set_params_names kwP fixed model (name :: rest)
      = (set_params_names kwP fixed model rest) >>= fun r => .ok (x :: r) := by
  simp only [set_params_names, hf, if_neg hm, hv]

lemma set_cons_free_pix (kwP fixed : KwDict)
    (name : String) (rest : List String) (m : List (List ℚ))
    (hf : List.lookup name fixed = none)
    (hname : ¬(name = "x_coords" ∨ name = "y_coords"))
    (himg : List.lookup "image" kwP = some (.arr2 m)) :
    set_params_names kwP fixed "PIXELATED" (name :: rest)
      = (set_params_names kwP fixed "PIXELATED" rest) >>= fun r => .ok (m.flatten ++ r) := by
  simp only [set_params_names, hf, if_pos rfl, if_true, if_neg hname, himg]

/-- Round-trip over one profile's `param_names`: decoding consumes exactly as
many slots as `_set_names` reports, and re-encoding the decoded kwargs
reproduces the consumed slice of the flat vector. -/
lemma roundtrip_names (fixed : KwDict) (model : String) (args : List ℚ) :
    ∀ (names nms : List String), names.Nodup →
    (model = "PIXELATED" → names ⊆ ["image", "x_coords", "y_coords"]) →
    set_names_names fixed model names = .ok nms →
    ∀ (kw0 : KwDict) (i : ℕ), i + nms.length ≤ args.length →
    ∃ kw, get_params_names fixed model args names kw0 i = .ok (kw, i + nms.length)
      ∧ set_params_names kw fixed model names = .ok (jslice args i nms.length) := by
  intro names
  induction names with
  | nil =>
    intro nms _ _ hnames kw0 i hbound
    simp only [set_names_names, Except.ok.injEq] at hnames
    subst hnames
    exact ⟨kw0, by simp [get_params_names], by simp [set_params_names, jslice]⟩
  | cons name rest ih =>
    intro nms hnodup hpix hnames kw0 i hbound
    have hnodupr : rest.Nodup := hnodup.of_cons
    have hnamenr : name ∉ rest := by
      rw [List.nodup_cons] at hnodup
      exact hnodup.1
    have hpixr : model = "PIXELATED" → rest ⊆ ["image", "x_coords", "y_coords"] :=
      fun hm => fun x hx => hpix hm (List.mem_cons_of_mem _ hx)
    simp only [set_names_names] at hnames
    rcases hf : List.lookup name fixed with _ | v
    · rw [hf] at hnames
      by_cases hm : model = "PIXELATED"
      · -- free name on a pixelated profile: a whole image block
        subst hm
        rw [if_pos rfl] at hnames
        rcases hxc : List.lookup "x_coords" fixed with _ | xc <;> rw [hxc] at hnames
        · cases hnames
        rcases hyc : List.lookup "y_coords" fixed with _ | yc <;> rw [hyc] at hnames
        · cases hnames
        obtain ⟨nx, hnx, hnames⟩ := except_bind_ok hnames
        obtain ⟨ny, hny, hnames⟩ := except_bind_ok hnames
        obtain ⟨nmsRest, hnmsRest, hnames⟩ := except_bind_ok hnames
        simp only [Except.ok.injEq] at hnames
        subst hnames
        have hname_img : name = "image" := by
          have h3 := hpix rfl (List.mem_cons_self _ _)
          simp only [List.mem_cons, List.not_mem_nil, or_false] at h3
          rcases h3 with h3 | h3 | h3
          · exact h3
          · exact absurd hxc (by rw [← h3, hf]; simp)
          · exact absurd hyc (by rw [← h3, hf]; simp)
        subst hname_img
        have hlen : ((List.range (nx * ny)).map (fun j => "a_" ++ toString j)
            ++ nmsRest).length = nx * ny + nmsRest.length := by simp
        rw [hlen] at hbound ⊢
        have hslice_len : (jslice args i (nx * ny)).length = nx * ny := by
          unfold jslice
          simp only [List.length_take, List.length_drop]
          omega
        obtain ⟨kw, hget, hset⟩ := ih nmsRest hnodupr hpixr hnmsRest
          (dictSet kw0 "image" (.arr2 (chunkRows nx ny (jslice args i (nx * ny)))))
          (i + nx * ny) (by omega)
        have hrestfixed : ∀ n ∈ rest, (List.lookup n fixed).isSome := by
          intro n hn
          have h3 := hpixr rfl hn
          simp only [List.mem_cons, List.not_mem_nil, or_false] at h3
          rcases h3 with h3 | h3 | h3
          · exact absurd (h3 ▸ hn) hnamenr
          · rw [h3, hxc]; rfl
          · rw [h3, hyc]; rfl
        have hpres : List.lookup "image" kw
            = some (.arr2 (chunkRows nx ny (jslice args i (nx * ny)))) := by
          rw [get_params_names_lookup_eq fixed "PIXELATED" args rest _ kw _ _ "image"
              hget hnamenr (fun _ => Or.inl hrestfixed)]
          exact lookup_dictSet_self _ _ _
        refine ⟨kw, ?_, ?_⟩
        · rw [get_cons_free_pix fixed args "image" rest kw0 i xc yc nx ny hf hxc hyc hnx hny]
          simp only [reshape2, hslice_len, if_pos rfl, except_pure_bind]
          rw [show i + (nx * ny + nmsRest.length) = (i + nx * ny) + nmsRest.length by omega]
          exact hget
        · rw [set_cons_free_pix kw fixed "image" rest _ hf (by decide) hpres]
          rw [hset, except_pure_bind]
          rw [chunkRows_flatten nx ny _ hslice_len, ← jslice_split]
      · -- free scalar parameter
        rw [if_neg hm] at hnames
        obtain ⟨nmsRest, hnmsRest, hnames⟩ := except_bind_ok hnames
        simp only [Except.ok.injEq] at hnames
        subst hnames
        simp only [List.length_cons] at hbound ⊢
        have hi : i < args.length := by omega
        obtain ⟨kw, hget, hset⟩ := ih nmsRest hnodupr hpixr hnmsRest
          (dictSet kw0 name (.scalar (jget args i))) (i + 1) (by omega)
        have hpres : List.lookup name kw = some (.scalar (jget args i)) := by
          rw [get_params_names_lookup_eq fixed model args rest _ kw _ _ name
              hget hnamenr (fun h2 => absurd h2 hm)]
          exact lookup_dictSet_self _ _ _
        refine ⟨kw, ?_, ?_⟩
        · rw [get_cons_free_scalar fixed model args name rest kw0 i hf hm]
          rw [show i + (nmsRest.length + 1) = (i + 1) + nmsRest.length by omega]
          exact hget
        · rw [set_cons_free_scalar kw fixed model name rest _ hf hm hpres]
          rw [hset, except_pure_bind]
          rw [show nmsRest.length + 1 = 1 + nmsRest.length by omega,
            jslice_cons args i nmsRest.length hi, jget_lt args i hi]
    · -- fixed parameter: copied through, no slot consumed
      rw [hf] at hnames
      obtain ⟨kw, hget, hset⟩ := ih nms hnodupr hpixr hnames (dictSet kw0 name v) i hbound
      refine ⟨kw, ?_, ?_⟩
      · rw [get_cons_fixed fixed model args name rest kw0 i v hf]
        exact hget
      · rw [set_cons_fixed kw fixed model name rest v hf]
        exact hset

/-- Round-trip over one model class's profile list. -/
lemma roundtrip_models (getNames : String → String → List String) (key : String)
    (args : List ℚ)
    (hnodup : ∀ m : String, (getNames key m).Nodup)
    (hpix : getNames key "PIXELATED" ⊆ ["image", "x_coords", "y_coords"]) :
    ∀ (models : List String) (fixeds : List KwDict) (nms : List String),
    set_names_models getNames key models fixeds = .ok nms →
    ∀ i : ℕ, i + nms.length ≤ args.length →
    ∃ kws, get_params_models getNames key args models fixeds i = .ok (kws, i + nms.length)
      ∧ set_params_models getNames key models kws fixeds = .ok (jslice args i nms.length) := by
  intro models
  induction models with
  | nil =>
    intro fixeds nms hnames i hbound
    simp only [set_names_models, Except.ok.injEq] at hnames
    subst hnames
    exact ⟨[], by simp [get_params_models], by simp [set_params_models, jslice]⟩
  | cons model ms ih =>
    intro fixeds nms hnames i hbound
    match fixeds with
    | [] => simp [set_names_models] at hnames
    | fixed :: fs =>
      simp only [set_names_models] at hnames
      obtain ⟨nmsH, hnmsH, hnames⟩ := except_bind_ok hnames
      obtain ⟨nmsT, hnmsT, hnames⟩ := except_bind_ok hnames
      simp only [Except.ok.injEq] at hnames
      subst hnames
      rw [List.length_append] at hbound ⊢
      obtain ⟨kwH, hgetH, hsetH⟩ := roundtrip_names fixed model args (getNames key model)
        nmsH (hnodup model) (fun hm => hm ▸ hpix) hnmsH [] i (by omega)
      obtain ⟨kwsT, hgetT, hsetT⟩ := ih fs nmsT hnmsT (i + nmsH.length) (by omega)
      refine ⟨kwH :: kwsT, ?_, ?_⟩
      · simp only [get_params_models, hgetH, except_pure_bind, hgetT]
        rw [show i + (nmsH.length + nmsT.length) = i + nmsH.length + nmsT.length by omega]
      · simp only [set_params_models, hsetH, except_pure_bind, hsetT]
        rw [jslice_split]

/-- C1: for every model specification and fixed set whose name table is
well-formed (duplicate-free per-profile parameter names; the pixelated
profile declares exactly `image`, `x_coords`, `y_coords`, as
`PixelatedSource.param_names` does), and every flat vector of the correct
length (the length of `Parameters.names`), decoding with `args2kwargs`
succeeds and re-encoding with `kwargs2args` reproduces the vector exactly. -/
theorem C1_roundtrip (P : ParametersM) (v : List ℚ) (nms : List String)
    (hnodup : ∀ key model, (P.getParamNames key model).Nodup)
    (hpix : ∀ key, P.getParamNames key "PIXELATED" = ["image", "x_coords", "y_coords"])
    (hnames : namesAll P = .ok nms)
    (hlen : v.length = nms.length) :
    ∃ kw, args2kwargs P v = .ok kw ∧ kwargs2args P kw = .ok v := by
  unfold namesAll at hnames
  obtain ⟨n1, hn1, hnames⟩ := except_bind_ok hnames
  obtain ⟨n2, hn2, hnames⟩ := except_bind_ok hnames
  obtain ⟨n3, hn3, hnames⟩ := except_bind_ok hnames
  simp only [Except.ok.injEq] at hnames
  subst hnames
  rw [List.length_append, List.length_append] at hlen
  obtain ⟨kw1, hget1, hset1⟩ := roundtrip_models P.getParamNames "kwargs_lens" v
    (hnodup _) (by rw [hpix]; exact List.Subset.refl _) P.lens_model_list P.fixed_lens n1 hn1 0 (by omega)
  obtain ⟨kw2, hget2, hset2⟩ := roundtrip_models P.getParamNames "kwargs_source" v
    (hnodup _) (by rw [hpix]; exact List.Subset.refl _) P.source_model_list P.fixed_source n2 hn2 n1.length (by omega)
  obtain ⟨kw3, hget3, hset3⟩ := roundtrip_models P.getParamNames "kwargs_lens_light" v
    (hnodup _) (by rw [hpix]; exact List.Subset.refl _) P.lens_light_model_list P.fixed_lens_light n3 hn3
    (n1.length + n2.length) (by omega)
  refine ⟨(kw1, kw2, kw3), ?_, ?_⟩
  · simp only [args2kwargs, hget1, except_pure_bind, Nat.zero_add, hget2, hget3]
  · simp only [kwargs2args, hset1, except_pure_bind, Nat.zero_add, hset2, hset3]
    have hv : v = jslice v 0 (n1.length + n2.length + n3.length) := by
      unfold jslice
      rw [List.drop_zero, ← hlen, List.take_length]
    conv_rhs => rw [hv]
    rw [jslice_split, jslice_split]
    simp only [Nat.zero_add]

/-- A concrete specification exercising both a scalar profile (SHEAR with
`ra_0`, `dec_0` fixed) and a pixelated source on a fixed 2×2 grid. -/
def Pwitness : ParametersM :=
  ⟨["SHEAR"], ["PIXELATED"], [],
    [[("ra_0", .scalar 0), ("dec_0", .scalar 0)]],
    [[("x_coords", .arr1 [0, 1]), ("y_coords", .arr1 [0, 1])]], [],
    fun _ m => if m = "PIXELATED" then ["image", "x_coords", "y_coords"]
      else ["gamma1", "gamma2", "ra_0", "dec_0"]⟩

/-- C1 witness: the round-trip theorem applied to a concrete 6-slot vector
(2 shear slots + 4 pixel slots). -/
theorem C1_roundtrip_witness :
    ∃ kw, args2kwargs Pwitness [1, 2, 3, 4, 5, 6] = .ok kw
      ∧ kwargs2args Pwitness kw = .ok [1, 2, 3, 4, 5, 6] :=
  C1_roundtrip Pwitness [1, 2, 3, 4, 5, 6]
    ["gamma1", "gamma2", "a_0", "a_1", "a_2", "a_3"]
    (fun key model => by
      have h : Pwitness.getParamNames key model
          = if model = "PIXELATED" then ["image", "x_coords", "y_coords"]
            else ["gamma1", "gamma2", "ra_0", "dec_0"] := rfl
      rw [h]
      split <;> decide)
    (fun key => rfl)
    rfl
    rfl

/-! ## MassModelBase (herculens/MassModel/mass_model_base.py)

Entries of `lens_model_list` are strings, profile classes, or something else
(`other`, e.g. an integer). Profile instances are modelled by tags carrying
the constructor arguments that `_import_class` passes. -/

inductive LensEntry where
  | str (s : String)
  | cls (className : String)
  | other
  deriving Repr, DecidableEq

inductive MassProfile where
  | gaussian
  | shear
  | shearGammaPsi
  | pointMass
  | nie
  | sie
  | sis
  | epl (noComplexNumbers : Option Bool)
  | multipole
  | pixelatedPotential (derivativeType interpolType : Option String)
  | pixelatedPotentialDirac
  | pixelatedFixed
  | custom (className : String)
  deriving Repr, DecidableEq

/-- `MassModelBase._import_class`: resolve a profile type to a fresh
instance; raises `ValueError` for an unregistered string or a non-string,
non-class entry. Keyword arguments default to `None` as in the source. -/
def import_class (lensType : LensEntry)
    (pixelDerivativeType pixelInterpol : Option String)
    (noComplexNumbers : Option Bool) (kwargsPixelGridFixed : Option Unit) :
    Except String MassProfile :=
  match lensType with
  | .str "GAUSSIAN" => .ok .gaussian
  | .str "SHEAR" => .ok .shear
  | .str "SHEAR_GAMMA_PSI" => .ok .shearGammaPsi
  | .str "POINT_MASS" => .ok .pointMass
  | .str "NIE" => .ok .nie
  | .str "SIE" => .ok .sie
  | .str "SIS" => .ok .sis
  | .str "EPL" => .ok (.epl noComplexNumbers)
  | .str "MULTIPOLE" => .ok .multipole
  | .str "PIXELATED" => .ok (.pixelatedPotential pixelDerivativeType pixelInterpol)
  | .str "PIXELATED_DIRAC" => .ok .pixelatedPotentialDirac
  | .str "PIXELATED_FIXED" =>
    match kwargsPixelGridFixed with
    | none => .error "ValueError: at least one pixel grid must be provided"
    | some _ => .ok .pixelatedFixed
  | .cls c => .ok (.custom c)
  | .str s => .error ("ValueError: " ++ s ++ " is not a valid lens model")
  | .other => .error "ValueError: entry is not a valid lens model"

/-- Loop body of `MassModelBase._load_model_instances`: walks the entries
with their indices, keeping a dict of already-imported non-pixelated classes
and overwriting `pix_idx` at every `PIXELATED`/`PIXELATED_DIRAC` entry. -/
def load_model_instances_loop
    (pixelDerivativeType pixelInterpol : Option String)
    (noComplexNumbers : Option Bool) (kwargsPixelGridFixed : Option Unit) :
    List (ℕ × LensEntry) → List (LensEntry × MassProfile) → Option ℕ →
    Except String (List MassProfile × Option ℕ)
  | [], _, pixIdx => .ok ([], pixIdx)
  | (idx, lensType) :: rest, imported, pixIdx =>
    if lensType = .str "PIXELATED" ∨ lensType = .str "PIXELATED_DIRAC" then do
      let c ← import_class lensType pixelDerivativeType pixelInterpol none none
      let (tail, pixIdx1) ← load_model_instances_loop pixelDerivativeType pixelInterpol
        noComplexNumbers kwargsPixelGridFixed rest imported (some idx)
      .ok (c :: tail, pixIdx1)
    else
      match List.lookup lensType imported with
      | none => do
        let c ← import_class lensType none none noComplexNumbers kwargsPixelGridFixed
        let (tail, pixIdx1) ← load_model_instances_loop pixelDerivativeType pixelInterpol
          noComplexNumbers kwargsPixelGridFixed rest (imported ++ [(lensType, c)]) pixIdx
        .ok (c :: tail, pixIdx1)
      | some c => do
        let (tail, pixIdx1) ← load_model_instances_loop pixelDerivativeType pixelInterpol
          noComplexNumbers kwargsPixelGridFixed rest imported pixIdx
        .ok (c :: tail, pixIdx1)

/-- `MassModelBase._load_model_instances`. -/
def load_model_instances (entries : List LensEntry)
    (pixelDerivativeType pixelInterpol : Option String)
    (noComplexNumbers : Option Bool) (kwargsPixelGridFixed : Option Unit) :
    Except String (List MassProfile × Option ℕ) :=
  load_model_instances_loop pixelDerivativeType pixelInterpol noComplexNumbers
    kwargsPixelGridFixed (List.zip (List.range entries.length) entries) [] none

/-- `MassModelBase.create_model_list`: mutates `lens_model_list` in place,
replacing class entries by their `__name__`; the returned value is the
caller's list object after mutation (modelled here as the new contents). -/
def create_model_list : List LensEntry → Except String (List LensEntry)
  | [] => .ok []
  | .cls c :: rest => do
    let tail ← create_model_list rest
    .ok (.str c :: tail)
  | .str s :: rest => do
    let tail ← create_model_list rest
    .ok (.str s :: tail)
  | .other :: _ => .error "ValueError: lens_model_list must be a list of strings or classes"

/-- The construction-time state of a `MassModelBase` object. -/
structure MassModelBaseM where
  func_list : List MassProfile
  pix_idx : Option ℕ
  model_list : List LensEntry
  num_func : ℕ
  kwargs_pixelated : Option Unit

/-- `MassModelBase.__init__`: `_load_model_instances` runs first, then
`create_model_list` mutates the argument list. -/
def massModelBaseInit (lens_model_list : List LensEntry)
    (kwargs_pixelated : Option Unit)
    (no_complex_numbers : Option Bool)
    (pixel_interpol : Option String)
    (pixel_derivative_type : Option String)
    (kwargs_pixel_grid_fixed : Option Unit) :
    Except String MassModelBaseM := do
  let (funcList, pixIdx) ← load_model_instances lens_model_list
    pixel_derivative_type pixel_interpol no_complex_numbers kwargs_pixel_grid_fixed
  let modelList ← create_model_list lens_model_list
  .ok ⟨funcList, pixIdx, modelList, funcList.length, kwargs_pixelated⟩

/-- `MassModelBase.pixelated_index` (property): the cached `_pix_idx`. -/
def MassModelBaseM.pixelated_index (M : MassModelBaseM) : Option ℕ := M.pix_idx

/-- The index of the last pixelated entry of the list, if any. -/
def lastPixelatedIndex (entries : List LensEntry) : Option ℕ :=
  (List.zip (List.range entries.length) entries).foldl
    (fun acc p =>
      if p.2 = .str "PIXELATED" ∨ p.2 = .str "PIXELATED_DIRAC" then some p.1 else acc)
    none

/-- C5 counterexample: a mass-model profile list with TWO pixelated
components is accepted at construction (no configuration error is raised);
the cached pixelated index is silently overwritten, ending at the last
pixelated entry (index 1). This falsifies the claim that such a construction
fails. -/
theorem C5_counterexample :
    ∃ M, massModelBaseInit [.str "PIXELATED", .str "PIXELATED"] none (some false)
        (some "fast_bilinear") (some "interpol") none = .ok M
      ∧ M.pixelated_index = some 1
      ∧ M.func_list = [.pixelatedPotential (some "interpol") (some "fast_bilinear"),
          .pixelatedPotential (some "interpol") (some "fast_bilinear")] :=
  ⟨_, rfl, rfl, rfl⟩

lemma load_loop_pix_idx (pdt pixInterpol : Option String) (ncn : Option Bool)
    (kpgf : Option Unit) :
    ∀ (l : List (ℕ × LensEntry)) (imported : List (LensEntry × MassProfile))
      (pixIdx : Option ℕ) (fl : List MassProfile) (pidx : Option ℕ),
    load_model_instances_loop pdt pixInterpol ncn kpgf l imported pixIdx = .ok (fl, pidx) →
    pidx = l.foldl (fun acc p =>
      if p.2 = .str "PIXELATED" ∨ p.2 = .str "PIXELATED_DIRAC" then some p.1 else acc) pixIdx
    ∧ fl.length = l.length := by
  intro l
  induction l with
  | nil =>
    intro imported pixIdx fl pidx h
    simp only [load_model_instances_loop, Except.ok.injEq, Prod.mk.injEq] at h
    simp [← h.1, ← h.2]
  | cons hd tl ih =>
    intro imported pixIdx fl pidx h
    obtain ⟨idx, e⟩ := hd
    simp only [load_model_instances_loop] at h
    by_cases hp : e = .str "PIXELATED" ∨ e = .str "PIXELATED_DIRAC"
    · rw [if_pos hp] at h
      obtain ⟨c, hc, h⟩ := except_bind_ok h
      obtain ⟨pr, hpr, h⟩ := except_bind_ok h
      obtain ⟨tail, p1⟩ := pr
      simp only [Except.ok.injEq, Prod.mk.injEq] at h
      obtain ⟨hfl, hpidx⟩ := h
      obtain ⟨h1, h2⟩ := ih _ _ _ _ hpr
      subst hpidx
      refine ⟨by rw [h1, List.foldl_cons, if_pos hp], ?_⟩
      rw [← hfl]
      simp [h2]
    · rw [if_neg hp] at h
      rcases himp : List.lookup e imported with _ | c <;> rw [himp] at h
      · obtain ⟨c, hc, h⟩ := except_bind_ok h
        obtain ⟨pr, hpr, h⟩ := except_bind_ok h
        obtain ⟨tail, p1⟩ := pr
        simp only [Except.ok.injEq, Prod.mk.injEq] at h
        obtain ⟨hfl, hpidx⟩ := h
        obtain ⟨h1, h2⟩ := ih _ _ _ _ hpr
        subst hpidx
        refine ⟨by rw [h1, List.foldl_cons, if_neg hp], ?_⟩
        rw [← hfl]
        simp [h2]
      · obtain ⟨pr, hpr, h⟩ := except_bind_ok h
        obtain ⟨tail, p1⟩ := pr
        simp only [Except.ok.injEq, Prod.mk.injEq] at h
        obtain ⟨hfl, hpidx⟩ := h
        obtain ⟨h1, h2⟩ := ih _ _ _ _ hpr
        subst hpidx
        refine ⟨by rw [h1, List.foldl_cons, if_neg hp], ?_⟩
        rw [← hfl]
        simp [h2]

/-- C5 (amended): construction does not reject multiple pixelated
components; instead, every successfully constructed composite caches as its
pixelated index the index of the LAST `PIXELATED`/`PIXELATED_DIRAC` entry of
the profile-type list (`none` when there is none), and holds one profile
instance per entry. -/
theorem C5_amended (entries : List LensEntry) (pdt pixInterpol : Option String)
    (ncn : Option Bool) (kpgf : Option Unit) (fl : List MassProfile) (pidx : Option ℕ)
    (h : load_model_instances entries pdt pixInterpol ncn kpgf = .ok (fl, pidx)) :
    pidx = lastPixelatedIndex entries ∧ fl.length = entries.length := by
  have h2 := load_loop_pix_idx pdt pixInterpol ncn kpgf
    (List.zip (List.range entries.length) entries) [] none fl pidx h
  refine ⟨h2.1, h2.2.trans ?_⟩
  simp [List.length_zip]

/-- C5 witness: the amended statement at the two-pixelated-profile input. -/
theorem C5_amended_witness :
    some 1 = lastPixelatedIndex [.str "PIXELATED", .str "PIXELATED"]
    ∧ ([MassProfile.pixelatedPotential (some "interpol") (some "fast_bilinear"),
        .pixelatedPotential (some "interpol") (some "fast_bilinear")]).length
      = ([LensEntry.str "PIXELATED", .str "PIXELATED"]).length :=
  C5_amended [.str "PIXELATED", .str "PIXELATED"] (some "interpol") (some "fast_bilinear")
    (some false) none _ (some 1) rfl

/-- What a class entry becomes after `create_model_list`: its `__name__`. -/
def entryName : LensEntry → LensEntry
  | .cls c => .str c
  | e => e

lemma create_model_list_ok (l : List LensEntry) :
    ∀ r, create_model_list l = .ok r → r = l.map entryName ∧ LensEntry.other ∉ l := by
  induction l with
  | nil =>
    intro r h
    simp only [create_model_list, Except.ok.injEq] at h
    simp [← h]
  | cons e rest ih =>
    intro r h
    cases e with
    | str s =>
      simp only [create_model_list] at h
      obtain ⟨tail, htail, h⟩ := except_bind_ok h
      simp only [Except.ok.injEq] at h
      obtain ⟨h1, h2⟩ := ih tail htail
      subst h1
      simp [← h, entryName, h2]
    | cls c =>
      simp only [create_model_list] at h
      obtain ⟨tail, htail, h⟩ := except_bind_ok h
      simp only [Except.ok.injEq] at h
      obtain ⟨h1, h2⟩ := ih tail htail
      subst h1
      simp [← h, entryName, h2]
    | other => exact absurd h (by simp [create_model_list])

/-- C10: the constructor normalises the caller's `lens_model_list` in place:
after a successful construction the list holds, for every entry that was a
class, that class's name string, with string entries unchanged; and a list
containing an entry of any other type makes construction raise `ValueError`. -/
theorem C10_constructor_list_mutation :
    (∀ (l : List LensEntry) (kp : Option Unit) (ncn : Option Bool)
       (pixInterpol pdt : Option String) (kpgf : Option Unit) (M : MassModelBaseM),
      massModelBaseInit l kp ncn pixInterpol pdt kpgf = .ok M →
      M.model_list = l.map entryName)
    ∧ (∀ (l : List LensEntry) (kp : Option Unit) (ncn : Option Bool)
       (pixInterpol pdt : Option String) (kpgf : Option Unit),
      LensEntry.other ∈ l →
      ∃ msg, massModelBaseInit l kp ncn pixInterpol pdt kpgf = .error msg) := by
  constructor
  · intro l kp ncn pixInterpol pdt kpgf M h
    simp only [massModelBaseInit] at h
    obtain ⟨pr, hpr, h⟩ := except_bind_ok h
    obtain ⟨funcList, pixIdx⟩ := pr
    obtain ⟨modelList, hml, h⟩ := except_bind_ok h
    simp only [Except.ok.injEq] at h
    rw [← h]
    exact (create_model_list_ok l modelList hml).1
  · intro l kp ncn pixInterpol pdt kpgf hmem
    rcases hinit : massModelBaseInit l kp ncn pixInterpol pdt kpgf with msg | M
    · exact ⟨_, rfl⟩
    · exfalso
      simp only [massModelBaseInit] at hinit
      obtain ⟨pr, hpr, hinit⟩ := except_bind_ok hinit
      obtain ⟨funcList, pixIdx⟩ := pr
      obtain ⟨modelList, hml, hinit⟩ := except_bind_ok hinit
      exact (create_model_list_ok l modelList hml).2 hmem

/-- C10 witness: a class entry is renamed to its name string while a string
entry survives unchanged; an integer-like entry raises. -/
theorem C10_constructor_list_mutation_witness :
    (⟨[.custom "MyProfile", .sie], none, [.str "MyProfile", .str "SIE"], 2, none⟩ :
        MassModelBaseM).model_list
      = ([LensEntry.cls "MyProfile", .str "SIE"]).map entryName
    ∧ ∃ msg, massModelBaseInit [.other] none (some false) (some "fast_bilinear")
        (some "interpol") none = .error msg :=
  ⟨C10_constructor_list_mutation.1 [.cls "MyProfile", .str "SIE"] none (some false)
      (some "fast_bilinear") (some "interpol") none _ rfl,
    C10_constructor_list_mutation.2 [.other] none (some false) (some "fast_bilinear")
      (some "interpol") none (by simp)⟩

/-! ## LightModelBase.surface_brightness
(jaxtronomy/LightModel/light_model_base.py)

Profile instances are abstracted as their `function` evaluation maps (the
concrete Sersic/uniform/pixelated formulas live outside the embedded
sources); coordinate arrays are flattened 1D arrays whose shape is their
length. -/

abbrev LightFunc := List ℚ → List ℚ → KwDict → List ℚ

/-- A profile-selection argument `k`: a single index, an index list, or a
boolean mask. -/
inductive Selection where
  | idx (i : ℕ)
  | idxList (l : List ℕ)
  | boolList (l : List Bool)
  deriving Repr, DecidableEq

/-- Modelled from the spec: `convert_bool_list` (jaxtronomy/Util/util.py) is
not under the embedded sources. Per spec §4.3 the selection mask (boolean
mask or index list/single index, `None` meaning all) selects a subset of the
`n` profiles without altering composite state. -/
def convert_bool_list (n : ℕ) (k : Option Selection) : List Bool :=
  match k with
  | none => List.replicate n true
  | some (.idx i) => (List.range n).map (fun j => decide (j = i))
  | some (.idxList l) => (List.range n).map (fun j => decide (j ∈ l))
  | some (.boolList l) => l

/-- Elementwise `flux += func.function(x, y, **kwargs)`. -/
def addVec (a b : List ℚ) : List ℚ := List.zipWith (· + ·) a b

/-- `LightModelBase.surface_brightness`: start from `jnp.zeros_like(x)` and
add the selected profiles' contributions. -/
def surface_brightness (funcs : List LightFunc) (x y : List ℚ)
    (kwargs_list : List KwDict) (k : Option Selection) : List ℚ :=
  (List.range funcs.length).foldl (fun flux i =>
    if (convert_bool_list funcs.length k).getD i false then
      addVec flux ((funcs.getD i (fun _ _ _ => [])) x y (kwargs_list.getD i []))
    else flux) (List.replicate x.length 0)

lemma foldl_if_false (cond : ℕ → Bool) (step : List ℚ → ℕ → List ℚ)
    (init : List ℚ) :
    ∀ n, (∀ i < n, cond i = false) →
    (List.range n).foldl (fun flux i => if cond i then step flux i else flux) init
      = init := by
  intro n
  induction n with
  | zero => intro _; simp
  | succ n ih =>
    intro h
    rw [List.range_succ, List.foldl_append, ih (fun i hi => h i (by omega))]
    simp [h n (by omega)]

/-- C7: selecting zero profiles -- an empty profile list, or a selection
mask that marks no component -- yields the all-zero field with the
coordinate arrays' shape (`jnp.zeros_like(x)`), for every coordinate pair
and kwargs list. -/
theorem C7_zero_selection (funcs : List LightFunc) (x y : List ℚ)
    (kwargs_list : List KwDict) (k : Option Selection)
    (h : funcs = [] ∨ ∀ i < funcs.length,
      (convert_bool_list funcs.length k).getD i false = false) :
    surface_brightness funcs x y kwargs_list k = List.replicate x.length 0 := by
  have hall : ∀ i < funcs.length,
      (convert_bool_list funcs.length k).getD i false = false := by
    rcases h with h | h
    · intro i hi
      rw [h] at hi
      exact absurd hi (by simp)
    · exact h
  unfold surface_brightness
  exact foldl_if_false _ _ _ funcs.length hall

/-- C7 witness: a one-profile model with an all-false boolean mask yields
zeros. -/
theorem C7_zero_selection_witness :
    surface_brightness [fun x _ _ => x] [3, 4] [5, 6] [[]]
      (some (.boolList [false])) = List.replicate 2 0 :=
  C7_zero_selection [fun x _ _ => x] [3, 4] [5, 6] [[]]
    (some (.boolList [false])) (Or.inr (by decide))

/-! ## LensImage.simulation (herculens/LensImage/lens_image.py) -/

/-- The noise provider: realisation of a noise map for a model image and a
PRNG seed (herculens/Instrument/noise.py, outside the embedded sources). -/
structure NoiseM where
  realisation : List (List ℚ) → ℕ → List (List ℚ)

/-- The parts of a `LensImage` object that `simulation` reads: the optional
noise provider and the `model(**model_kwargs)` evaluation (abstracted: the
claim is independent of the model pipeline's content). -/
structure LensImageM where
  noise : Option NoiseM
  modelFn : Unit → List (List ℚ)

def matAdd (a b : List (List ℚ)) : List (List ℚ) :=
  List.zipWith (List.zipWith (· + ·)) a b

/-- `LensImage.simulation`: the Noise-is-None guard raises before
`self.model(**model_kwargs)` is evaluated; the `set_data` /
`compute_noise_map_from_model` updates mutate the noise object and do not
affect the returned image. -/
def simulation (L : LensImageM) (noise_seed : ℕ) : Except String (List (List ℚ)) :=
  match L.noise with
  | none =>
    .error "Impossible to generate noise realisation because no noise class has been set"
  | some nc =>
    let model := L.modelFn ()
    .ok (matAdd model (nc.realisation model noise_seed))

/-- C8: with no noise provider configured, every `simulation` call raises
`ValueError` before any model evaluation and never returns any image -- in
particular it never falls back to the noiseless model image. -/
theorem C8_simulation_requires_noise (L : LensImageM) (seed : ℕ)
    (h : L.noise = none) :
    simulation L seed
      = .error "Impossible to generate noise realisation because no noise class has been set"
    ∧ ∀ img, simulation L seed ≠ .ok img := by
  unfold simulation
  rw [h]
  exact ⟨rfl, fun img hok => by cases hok⟩

/-- C8 witness: a lens image with no noise provider and a nonzero model. -/
theorem C8_simulation_requires_noise_witness :
    simulation ⟨none, fun _ => [[1]]⟩ 18
      = .error "Impossible to generate noise realisation because no noise class has been set"
    ∧ ∀ img, simulation ⟨none, fun _ => [[1]]⟩ 18 ≠ .ok img :=
  C8_simulation_requires_noise ⟨none, fun _ => [[1]]⟩ 18 rfl

/-! ## unconstrain_reparam (herculens/Inference/ProbModel/numpyro_util.py)

Site values and numpyro transforms are abstracted (numpyro is an external
library); the embedding keeps the function's own control flow. -/

inductive JVal where
  | scalar (q : ℚ)
  | arr (l : List ℚ)
  deriving Repr, DecidableEq

/-- The fields of a trace site that `unconstrain_reparam` reads. -/
structure SiteM where
  name : String
  siteType : String
  paramEventDimLen : Option ℕ
  transformApply : JVal → JVal
  supportIsReal : Bool
  scanCurrentIndex : Option ℕ

/-- `unconstrain_reparam`. For a sample-like site carrying a scan
current-index hint, line 36 of the source evaluates `t.domain.event_dim`
where no variable `t` is in scope (the transform is bound to `transform`),
so Python raises `NameError` before the dimension check or any slicing. -/
def unconstrain_reparam (params : List (String × JVal)) (site : SiteM) :
    Except String (Option JVal) :=
  match List.lookup site.name params with
  | none => .ok none
  | some p =>
    if site.siteType = "param" then
      match site.paramEventDimLen with
      | none => .error "TypeError: len of unsized object"
      | some _ => .ok (some (site.transformApply p))
    else
      match site.scanCurrentIndex with
      | some _ => .error "NameError: name t is not defined"
      | none =>
        if site.supportIsReal then .ok (some p)
        else .ok (some (site.transformApply p))

/-- C9 (code bug): a sample site wrapped in a scan context (i.e. carrying
`infer['_scan_current_index']`) with a substituted value makes
`unconstrain_reparam` raise `NameError` -- the undefined name `t` on line 36
-- instead of substituting the transformed time-index slice. -/
theorem C9_scan_hint_name_error :
    unconstrain_reparam [("x", .arr [1, 2, 3])]
      ⟨"x", "sample", none, id, false, some 0⟩
      = .error "NameError: name t is not defined" := rfl

/-! ## build_bilinear_interpol_matrix (herculens/Util/linear_util.py)

The four grid arrays are modelled as index functions with explicit sizes
(`x_grid_1d_in[p] = xin p` for `p < sizeIn`, etc.). Each definition below
mirrors one line of the source. Out-of-range access through a python-style
(possibly negative) index is modelled by `pyGet` with python's wrap-around
indexing; the sparse `csr_matrix` assembly, which sums duplicate
`(row, col)` entries, is modelled by `opEntry`. -/

structure GridsIn where
  xin : ℕ → ℚ
  yin : ℕ → ℚ
  sizeIn : ℕ
  xout : ℕ → ℚ
  yout : ℕ → ℚ
  sizeOut : ℕ

/-- `num_pix = int(np.sqrt(x_grid_1d_in.size))`. -/
def numPix (G : GridsIn) : ℕ := Nat.sqrt G.sizeIn

/-- `delta_pix = np.abs(x_grid_1d_in[0] - x_grid_1d_in[1])`. -/
def deltaPix (G : GridsIn) : ℚ := |G.xin 0 - G.xin 1|

def halfPix (G : GridsIn) : ℚ := deltaPix G / 2

/-- `x_dir = -1 if x_coord[0] > x_coord[-1] else 1`. -/
def xDir (G : GridsIn) : ℤ := if G.xin (numPix G - 1) < G.xin 0 then -1 else 1

def xLower (G : GridsIn) : ℚ := G.xin 0 - (xDir G : ℚ) * halfPix G

def xUpper (G : GridsIn) : ℚ := G.xin (numPix G - 1) + (xDir G : ℚ) * halfPix G

/-- `xbins = np.linspace(x_lower, x_upper, num_pix + 1)`. -/
def xbins (G : GridsIn) (k : ℕ) : ℚ :=
  xLower G + k * ((xUpper G - xLower G) / (numPix G : ℚ))

/-- `y_coord = y_grid_1d_in[::num_pix]`. -/
def yCoordAt (G : GridsIn) (i : ℕ) : ℚ := G.yin (i * numPix G)

def yDir (G : GridsIn) : ℤ := if yCoordAt G (numPix G - 1) < yCoordAt G 0 then -1 else 1

def yLower (G : GridsIn) : ℚ := yCoordAt G 0 - (yDir G : ℚ) * halfPix G

def yUpper (G : GridsIn) : ℚ := yCoordAt G (numPix G - 1) + (yDir G : ℚ) * halfPix G

def ybins (G : GridsIn) (k : ℕ) : ℚ :=
  yLower G + k * ((yUpper G - yLower G) / (numPix G : ℚ))

/-- `x_min, x_max = [x_lower, x_upper][::x_dir]`. -/
def xMin (G : GridsIn) : ℚ := if xDir G = 1 then xLower G else xUpper G

def xMax (G : GridsIn) : ℚ := if xDir G = 1 then xUpper G else xLower G

def yMin (G : GridsIn) : ℚ := if yDir G = 1 then yLower G else yUpper G

def yMax (G : GridsIn) : ℚ := if yDir G = 1 then yUpper G else yLower G

/-- The in-bounds selection over the output points (strict inequalities). -/
def selection (G : GridsIn) (p : ℕ) : Bool :=
  decide (xMin G < G.xout p) && decide (G.xout p < xMax G) &&
  decide (yMin G < G.yout p) && decide (G.yout p < yMax G)

/-- `np.nonzero(selection)[0]`: the original indices of the selected output
points (the filtered grid is read through them; with nothing filtered the
arrays are unchanged). -/
def selIdxList (G : GridsIn) : List ℕ :=
  (List.range G.sizeOut).filter (fun p => selection G p)

def numPixOutSel (G : GridsIn) : ℕ := (selIdxList G).length

def rowIdx (G : GridsIn) (m : ℕ) : ℕ := (selIdxList G).getD m 0

def xoAt (G : GridsIn) (m : ℕ) : ℚ := G.xout (rowIdx G m)

def yoAt (G : GridsIn) (m : ℕ) : ℚ := G.yout (rowIdx G m)

/-- `np.digitize(v, bins)` for strictly monotone bins: for increasing bins
the count of edges `≤ v`, for decreasing bins the count of edges `> v`. -/
def digitize (v : ℚ) (bins : ℕ → ℚ) (numEdges : ℕ) : ℕ :=
  if bins 0 ≤ bins (numEdges - 1) then
    ((Finset.range numEdges).filter (fun k => bins k ≤ v)).card
  else
    ((Finset.range numEdges).filter (fun k => v < bins k)).card

/-- `index_x = np.digitize(x_grid_1d_out, xbins) - 1`. -/
def indexX (G : GridsIn) (m : ℕ) : ℤ :=
  (digitize (xoAt G m) (xbins G) (numPix G + 1) : ℤ) - 1

def indexY (G : GridsIn) (m : ℕ) : ℤ :=
  (digitize (yoAt G m) (ybins G) (numPix G + 1) : ℤ) - 1

/-- `index_1 = index_x + index_y * num_pix`. -/
def index1 (G : GridsIn) (m : ℕ) : ℤ := indexX G m + indexY G m * (numPix G : ℤ)

/-- Python array indexing with wrap-around for negative indices. -/
def pyGet (f : ℕ → ℚ) (size : ℕ) (i : ℤ) : ℚ := f (i % (size : ℤ)).toNat

/-- `dx = x_grid_1d_out - x_grid_1d_in[index_1]`. -/
def dxAt (G : GridsIn) (m : ℕ) : ℚ := xoAt G m - pyGet G.xin G.sizeIn (index1 G m)

def dyAt (G : GridsIn) (m : ℕ) : ℚ := yoAt G m - pyGet G.yin G.sizeIn (index1 G m)

/-- `np.sign` on exact rationals. -/
def qsign (q : ℚ) : ℤ := if 0 < q then 1 else if q < 0 then -1 else 0

def index2 (G : GridsIn) (m : ℕ) : ℤ := index1 G m + xDir G * qsign (dxAt G m)

def index3 (G : GridsIn) (m : ℕ) : ℤ :=
  index1 G m + yDir G * qsign (dyAt G m) * (numPix G : ℤ)

def index4 (G : GridsIn) (m : ℕ) : ℤ :=
  index2 G m + yDir G * qsign (dyAt G m) * (numPix G : ℤ)

def maxIndex (G : GridsIn) : ℤ := (G.sizeIn : ℤ) - 1

/-- The four stacked neighbour-index rows. -/
def colRaw (G : GridsIn) (r m : ℕ) : ℤ :=
  if r = 0 then index1 G m
  else if r = 1 then index2 G m
  else if r = 2 then index3 G m
  else index4 G m

/-- Row 0 is never masked; rows 1-3 are masked out when out of bounds. -/
def maskAt (G : GridsIn) (r m : ℕ) : Bool :=
  if r = 0 then true
  else !(decide (colRaw G r m < 0) || decide (maxIndex G < colRaw G r m))

/-- `col[~mask] = 0` before the distance computation. -/
def colM (G : GridsIn) (r m : ℕ) : ℤ := if maskAt G r m then colRaw G r m else 0

def distX (G : GridsIn) (r m : ℕ) : ℚ :=
  (xoAt G m - pyGet G.xin G.sizeIn (colM G r m)) / deltaPix G

def distY (G : GridsIn) (r m : ℕ) : ℚ :=
  (yoAt G m - pyGet G.yin G.sizeIn (colM G r m)) / deltaPix G

/-- Bilinear weights `(1 - |dist_x|) * (1 - |dist_y|)`. -/
def weightAt (G : GridsIn) (r m : ℕ) : ℚ := (1 - |distX G r m|) * (1 - |distY G r m|)

/-- `norm = np.sum(weight, axis=0, where=mask)`. -/
def normAt (G : GridsIn) (m : ℕ) : ℚ :=
  ∑ r ∈ Finset.range 4, if maskAt G r m then weightAt G r m else 0

def weightN (G : GridsIn) (r m : ℕ) : ℚ := weightAt G r m / normAt G m

/-- The assembled sparse operator: entry `(p, q)` is the sum of the
normalised weights of all unmasked stacked entries with row `p` and column
`q` (scipy's `csr_matrix` sums duplicate coordinates). -/
def opEntry (G : GridsIn) (p q : ℕ) : ℚ :=
  ∑ r ∈ Finset.range 4, ∑ m ∈ Finset.range (numPixOutSel G),
    if maskAt G r m ∧ rowIdx G m = p ∧ colM G r m = (q : ℤ) then weightN G r m else 0

/-- Applying the operator to a value vector. -/
def opApply (G : GridsIn) (v : ℕ → ℚ) (p : ℕ) : ℚ :=
  ∑ q ∈ Finset.range G.sizeIn, opEntry G p q * v q

/-- A square raster grid with `n × n` pixels of uniform (signed) steps
`dx`, `dy`, flattened row-major with x varying fastest, used both as the
input and as the identical output grid. -/
def rasterGrid (n : ℕ) (x0 y0 dx dy : ℚ) : GridsIn :=
  ⟨fun p => x0 + (p % n : ℕ) * dx, fun p => y0 + (p / n : ℕ) * dy, n * n,
    fun p => x0 + (p % n : ℕ) * dx, fun p => y0 + (p / n : ℕ) * dy, n * n⟩

/-! Facts about `rasterGrid n x0 y0 dx dy` under `2 ≤ n`, `dx ≠ 0`,
`|dy| = |dx|`. -/

lemma rb_numPix (n : ℕ) (x0 y0 dx dy : ℚ) :
    numPix (rasterGrid n x0 y0 dx dy) = n := by
  simp [numPix, rasterGrid, Nat.sqrt_eq]

lemma rb_xin (n : ℕ) (x0 y0 dx dy : ℚ) (p : ℕ) :
    (rasterGrid n x0 y0 dx dy).xin p = x0 + (p % n : ℕ) * dx := rfl

lemma rb_yin (n : ℕ) (x0 y0 dx dy : ℚ) (p : ℕ) :
    (rasterGrid n x0 y0 dx dy).yin p = y0 + (p / n : ℕ) * dy := rfl

lemma rb_xin_zero (n : ℕ) (x0 y0 dx dy : ℚ) :
    (rasterGrid n x0 y0 dx dy).xin 0 = x0 := by
  simp [rb_xin]

lemma rb_xin_last (n : ℕ) (x0 y0 dx dy : ℚ) (hn : 2 ≤ n) :
    (rasterGrid n x0 y0 dx dy).xin (n - 1) = x0 + ((n : ℚ) - 1) * dx := by
  rw [rb_xin, Nat.mod_eq_of_lt (by omega)]
  congr 1
  push_cast [Nat.cast_sub (by omega : 1 ≤ n)]
  ring

lemma rb_deltaPix (n : ℕ) (x0 y0 dx dy : ℚ) (hn : 2 ≤ n) :
    deltaPix (rasterGrid n x0 y0 dx dy) = |dx| := by
  unfold deltaPix
  rw [rb_xin_zero, rb_xin, Nat.mod_eq_of_lt (by omega)]
  rw [show x0 - (x0 + (1 : ℕ) * dx) = -dx by push_cast; ring, abs_neg]

lemma rb_xDir (n : ℕ) (x0 y0 dx dy : ℚ) (hn : 2 ≤ n) :
    xDir (rasterGrid n x0 y0 dx dy) = if dx < 0 then -1 else 1 := by
  unfold xDir
  rw [rb_numPix, rb_xin_last n x0 y0 dx dy hn, rb_xin_zero]
  have hcast : (0 : ℚ) < (n : ℚ) - 1 := by
    have : (2 : ℚ) ≤ (n : ℚ) := by exact_mod_cast hn
    linarith
  by_cases h : dx < 0
  · rw [if_pos (by nlinarith), if_pos h]
  · rw [if_neg (by push_neg at h ⊢; nlinarith), if_neg h]

lemma rb_xLower (n : ℕ) (x0 y0 dx dy : ℚ) (hn : 2 ≤ n) (hdx : dx ≠ 0) :
    xLower (rasterGrid n x0 y0 dx dy) = x0 - dx / 2 := by
  unfold xLower halfPix
  rw [rb_deltaPix n x0 y0 dx dy hn, rb_xDir n x0 y0 dx dy hn, rb_xin_zero]
  rcases lt_or_gt_of_ne hdx with h | h
  · rw [if_pos h, abs_of_neg h]
    push_cast
    ring
  · rw [if_neg (by linarith), abs_of_pos h]
    push_cast
    ring

lemma rb_xUpper (n : ℕ) (x0 y0 dx dy : ℚ) (hn : 2 ≤ n) (hdx : dx ≠ 0) :
    xUpper (rasterGrid n x0 y0 dx dy) = x0 + ((n : ℚ) - 1) * dx + dx / 2 := by
  unfold xUpper halfPix
  rw [rb_numPix, rb_deltaPix n x0 y0 dx dy hn, rb_xDir n x0 y0 dx dy hn,
    rb_xin_last n x0 y0 dx dy hn]
  rcases lt_or_gt_of_ne hdx with h | h
  · rw [if_pos h, abs_of_neg h]
    push_cast
    ring
  · rw [if_neg (by linarith), abs_of_pos h]
    push_cast
    ring

lemma rb_xbins (n : ℕ) (x0 y0 dx dy : ℚ) (hn : 2 ≤ n) (hdx : dx ≠ 0) (k : ℕ) :
    xbins (rasterGrid n x0 y0 dx dy) k = x0 - dx / 2 + k * dx := by
  unfold xbins
  rw [rb_numPix, rb_xLower n x0 y0 dx dy hn hdx, rb_xUpper n x0 y0 dx dy hn hdx]
  have hne : ((n : ℚ)) ≠ 0 := by
    have : (2 : ℚ) ≤ (n : ℚ) := by exact_mod_cast hn
    linarith
  field_simp
  ring

lemma rb_dy_ne (dx dy : ℚ) (hdx : dx ≠ 0) (hxy : |dy| = |dx|) : dy ≠ 0 := by
  intro h
  rw [h] at hxy
  simp only [abs_zero] at hxy
  exact hdx (abs_eq_zero.mp hxy.symm)

lemma rb_yCoordAt (n : ℕ) (x0 y0 dx dy : ℚ) (hn : 2 ≤ n) (i : ℕ) :
    yCoordAt (rasterGrid n x0 y0 dx dy) i = y0 + (i : ℚ) * dy := by
  unfold yCoordAt
  rw [rb_numPix, rb_yin, Nat.mul_div_cancel _ (by omega : 0 < n)]

lemma rb_yDir (n : ℕ) (x0 y0 dx dy : ℚ) (hn : 2 ≤ n) :
    yDir (rasterGrid n x0 y0 dx dy) = if dy < 0 then -1 else 1 := by
  unfold yDir
  rw [rb_numPix, rb_yCoordAt n x0 y0 dx dy hn, rb_yCoordAt n x0 y0 dx dy hn]
  have hcast : (0 : ℚ) < ((n - 1 : ℕ) : ℚ) := by
    have : (1 : ℕ) ≤ n - 1 := by omega
    exact_mod_cast Nat.lt_of_lt_of_le Nat.zero_lt_one this
  by_cases h : dy < 0
  · rw [if_pos (by push_cast at hcast ⊢; nlinarith), if_pos h]
  · rw [if_neg (by push_neg at h ⊢; push_cast at hcast ⊢; nlinarith), if_neg h]

lemma rb_yLower (n : ℕ) (x0 y0 dx dy : ℚ) (hn : 2 ≤ n) (hdx : dx ≠ 0)
    (hxy : |dy| = |dx|) :
    yLower (rasterGrid n x0 y0 dx dy) = y0 - dy / 2 := by
  unfold yLower halfPix
  rw [rb_deltaPix n x0 y0 dx dy hn, ← hxy, rb_yDir n x0 y0 dx dy hn,
    rb_yCoordAt n x0 y0 dx dy hn]
  rcases lt_or_gt_of_ne (rb_dy_ne dx dy hdx hxy) with h | h
  · rw [if_pos h, abs_of_neg h]
    push_cast
    ring
  · rw [if_neg (by linarith), abs_of_pos h]
    push_cast
    ring

lemma rb_yUpper (n : ℕ) (x0 y0 dx dy : ℚ) (hn : 2 ≤ n) (hdx : dx ≠ 0)
    (hxy : |dy| = |dx|) :
    yUpper (rasterGrid n x0 y0 dx dy) = y0 + ((n : ℚ) - 1) * dy + dy / 2 := by
  unfold yUpper halfPix
  rw [rb_numPix, rb_deltaPix n x0 y0 dx dy hn, ← hxy, rb_yDir n x0 y0 dx dy hn,
    rb_yCoordAt n x0 y0 dx dy hn]
  have hc : ((n - 1 : ℕ) : ℚ) = (n : ℚ) - 1 := by
    push_cast [Nat.cast_sub (by omega : 1 ≤ n)]
    ring
  rcases lt_or_gt_of_ne (rb_dy_ne dx dy hdx hxy) with h | h
  · rw [if_pos h, abs_of_neg h, hc]
    ring
  · rw [if_neg (by linarith), abs_of_pos h, hc]
    ring

lemma rb_ybins (n : ℕ) (x0 y0 dx dy : ℚ) (hn : 2 ≤ n) (hdx : dx ≠ 0)
    (hxy : |dy| = |dx|) (k : ℕ) :
    ybins (rasterGrid n x0 y0 dx dy) k = y0 - dy / 2 + k * dy := by
  unfold ybins
  rw [rb_numPix, rb_yLower n x0 y0 dx dy hn hdx hxy, rb_yUpper n x0 y0 dx dy hn hdx hxy]
  have hne : ((n : ℚ)) ≠ 0 := by
    have : (2 : ℚ) ≤ (n : ℚ) := by exact_mod_cast hn
    linarith
  field_simp
  ring

lemma rb_xout (n : ℕ) (x0 y0 dx dy : ℚ) (p : ℕ) :
    (rasterGrid n x0 y0 dx dy).xout p = x0 + (p % n : ℕ) * dx := rfl

lemma rb_yout (n : ℕ) (x0 y0 dx dy : ℚ) (p : ℕ) :
    (rasterGrid n x0 y0 dx dy).yout p = y0 + (p / n : ℕ) * dy := rfl

set_option maxHeartbeats 1000000 in
lemma rb_selection (n : ℕ) (x0 y0 dx dy : ℚ) (hn : 2 ≤ n) (hdx : dx ≠ 0)
    (hxy : |dy| = |dx|) (p : ℕ) (hp : p < n * n) :
    selection (rasterGrid n x0 y0 dx dy) p = true := by
  have hdy := rb_dy_ne dx dy hdx hxy
  have hj : p % n < n := Nat.mod_lt _ (by omega)
  have hi : p / n < n := Nat.div_lt_of_lt_mul (by omega)
  have hjq : ((p % n : ℕ) : ℚ) ≤ (n : ℚ) - 1 := by
    have : ((p % n : ℕ) : ℚ) + 1 ≤ (n : ℚ) := by exact_mod_cast hj
    linarith
  have hjq0 : (0 : ℚ) ≤ ((p % n : ℕ) : ℚ) := by positivity
  have hiq : ((p / n : ℕ) : ℚ) ≤ (n : ℚ) - 1 := by
    have : ((p / n : ℕ) : ℚ) + 1 ≤ (n : ℚ) := by exact_mod_cast hi
    linarith
  have hiq0 : (0 : ℚ) ≤ ((p / n : ℕ) : ℚ) := by positivity
  unfold selection xMin xMax yMin yMax
  rw [rb_xDir n x0 y0 dx dy hn, rb_yDir n x0 y0 dx dy hn,
    rb_xLower n x0 y0 dx dy hn hdx, rb_xUpper n x0 y0 dx dy hn hdx,
    rb_yLower n x0 y0 dx dy hn hdx hxy, rb_yUpper n x0 y0 dx dy hn hdx hxy,
    rb_xout, rb_yout]
  simp only [Bool.and_eq_true, decide_eq_true_eq]
  rcases lt_or_gt_of_ne hdx with hx | hx <;> rcases lt_or_gt_of_ne hdy with hy | hy
  · rw [if_pos hx, if_pos hy]
    simp only [if_neg (show ¬((-1 : ℤ) = 1) by decide)]
    have hx1 : ((p % n : ℕ) : ℚ) * dx ≤ 0 := mul_nonpos_of_nonneg_of_nonpos hjq0 hx.le
    have hx2 : ((n : ℚ) - 1 - ((p % n : ℕ) : ℚ)) * dx ≤ 0 :=
      mul_nonpos_of_nonneg_of_nonpos (by linarith) hx.le
    have hy1 : ((p / n : ℕ) : ℚ) * dy ≤ 0 := mul_nonpos_of_nonneg_of_nonpos hiq0 hy.le
    have hy2 : ((n : ℚ) - 1 - ((p / n : ℕ) : ℚ)) * dy ≤ 0 :=
      mul_nonpos_of_nonneg_of_nonpos (by linarith) hy.le
    refine ⟨⟨⟨by linarith, by linarith⟩, by linarith⟩, by linarith⟩
  · rw [if_pos hx, if_neg (not_lt.mpr (le_of_lt hy))]
    simp only [if_neg (show ¬((-1 : ℤ) = 1) by decide), if_pos (show (1 : ℤ) = 1 from rfl),
      if_true]
    have hx1 : ((p % n : ℕ) : ℚ) * dx ≤ 0 := mul_nonpos_of_nonneg_of_nonpos hjq0 hx.le
    have hx2 : ((n : ℚ) - 1 - ((p % n : ℕ) : ℚ)) * dx ≤ 0 :=
      mul_nonpos_of_nonneg_of_nonpos (by linarith) hx.le
    have hy1 : 0 ≤ ((p / n : ℕ) : ℚ) * dy := mul_nonneg hiq0 hy.le
    have hy2 : 0 ≤ ((n : ℚ) - 1 - ((p / n : ℕ) : ℚ)) * dy := mul_nonneg (by linarith) hy.le
    refine ⟨⟨⟨by linarith, by linarith⟩, by linarith⟩, by linarith⟩
  · rw [if_neg (not_lt.mpr (le_of_lt hx)), if_pos hy]
    simp only [if_neg (show ¬((-1 : ℤ) = 1) by decide), if_pos (show (1 : ℤ) = 1 from rfl),
      if_true]
    have hx1 : 0 ≤ ((p % n : ℕ) : ℚ) * dx := mul_nonneg hjq0 hx.le
    have hx2 : 0 ≤ ((n : ℚ) - 1 - ((p % n : ℕ) : ℚ)) * dx := mul_nonneg (by linarith) hx.le
    have hy1 : ((p / n : ℕ) : ℚ) * dy ≤ 0 := mul_nonpos_of_nonneg_of_nonpos hiq0 hy.le
    have hy2 : ((n : ℚ) - 1 - ((p / n : ℕ) : ℚ)) * dy ≤ 0 :=
      mul_nonpos_of_nonneg_of_nonpos (by linarith) hy.le
    refine ⟨⟨⟨by linarith, by linarith⟩, by linarith⟩, by linarith⟩
  · rw [if_neg (not_lt.mpr (le_of_lt hx)), if_neg (not_lt.mpr (le_of_lt hy))]
    simp only [if_pos (show (1 : ℤ) = 1 from rfl), if_true]
    have hx1 : 0 ≤ ((p % n : ℕ) : ℚ) * dx := mul_nonneg hjq0 hx.le
    have hx2 : 0 ≤ ((n : ℚ) - 1 - ((p % n : ℕ) : ℚ)) * dx := mul_nonneg (by linarith) hx.le
    have hy1 : 0 ≤ ((p / n : ℕ) : ℚ) * dy := mul_nonneg hiq0 hy.le
    have hy2 : 0 ≤ ((n : ℚ) - 1 - ((p / n : ℕ) : ℚ)) * dy := mul_nonneg (by linarith) hy.le
    refine ⟨⟨⟨by linarith, by linarith⟩, by linarith⟩, by linarith⟩

lemma rb_sizeIn (n : ℕ) (x0 y0 dx dy : ℚ) :
    (rasterGrid n x0 y0 dx dy).sizeIn = n * n := rfl

lemma rb_sizeOut (n : ℕ) (x0 y0 dx dy : ℚ) :
    (rasterGrid n x0 y0 dx dy).sizeOut = n * n := rfl

lemma rb_selIdxList (n : ℕ) (x0 y0 dx dy : ℚ) (hn : 2 ≤ n) (hdx : dx ≠ 0)
    (hxy : |dy| = |dx|) :
    selIdxList (rasterGrid n x0 y0 dx dy) = List.range (n * n) := by
  unfold selIdxList
  rw [rb_sizeOut]
  exact List.filter_eq_self.mpr
    (fun p hp => rb_selection n x0 y0 dx dy hn hdx hxy p (List.mem_range.mp hp))

lemma rb_numPixOutSel (n : ℕ) (x0 y0 dx dy : ℚ) (hn : 2 ≤ n) (hdx : dx ≠ 0)
    (hxy : |dy| = |dx|) :
    numPixOutSel (rasterGrid n x0 y0 dx dy) = n * n := by
  unfold numPixOutSel
  rw [rb_selIdxList n x0 y0 dx dy hn hdx hxy, List.length_range]

lemma rb_rowIdx (n : ℕ) (x0 y0 dx dy : ℚ) (hn : 2 ≤ n) (hdx : dx ≠ 0)
    (hxy : |dy| = |dx|) (m : ℕ) (hm : m < n * n) :
    rowIdx (rasterGrid n x0 y0 dx dy) m = m := by
  unfold rowIdx
  rw [rb_selIdxList n x0 y0 dx dy hn hdx hxy,
    List.getD_eq_getElem _ _ (by simpa using hm), List.getElem_range]

lemma rb_xoAt (n : ℕ) (x0 y0 dx dy : ℚ) (hn : 2 ≤ n) (hdx : dx ≠ 0)
    (hxy : |dy| = |dx|) (m : ℕ) (hm : m < n * n) :
    xoAt (rasterGrid n x0 y0 dx dy) m = x0 + (m % n : ℕ) * dx := by
  unfold xoAt
  rw [rb_rowIdx n x0 y0 dx dy hn hdx hxy m hm, rb_xout]

lemma rb_yoAt (n : ℕ) (x0 y0 dx dy : ℚ) (hn : 2 ≤ n) (hdx : dx ≠ 0)
    (hxy : |dy| = |dx|) (m : ℕ) (hm : m < n * n) :
    yoAt (rasterGrid n x0 y0 dx dy) m = y0 + (m / n : ℕ) * dy := by
  unfold yoAt
  rw [rb_rowIdx n x0 y0 dx dy hn hdx hxy m hm, rb_yout]

lemma filter_le_range_card (N j : ℕ) (hj : j ≤ N) :
    ((Finset.range (N + 1)).filter (fun k => k ≤ j)).card = j + 1 := by
  have h : (Finset.range (N + 1)).filter (fun k => k ≤ j) = Finset.range (j + 1) := by
    ext k
    simp only [Finset.mem_filter, Finset.mem_range]
    omega
  rw [h, Finset.card_range]

/-- Digitizing a bin-center against uniformly spaced edges
`a, a + d, a + 2d, ...` lands in its own bin, for either direction of the
step. -/
lemma digitize_uniform (a d : ℚ) (hd : d ≠ 0) (N j : ℕ) (hjN : j < N) :
    digitize (a + d / 2 + j * d) (fun k => a + k * d) (N + 1) = j + 1 := by
  unfold digitize
  simp only [Nat.add_sub_cancel, Nat.cast_zero, zero_mul, add_zero]
  have hNq : (1 : ℚ) ≤ (N : ℚ) := by exact_mod_cast Nat.one_le_iff_ne_zero.mpr (by omega)
  rcases lt_or_gt_of_ne hd with h | h
  · rw [if_neg (by nlinarith)]
    have hiff : ∀ k ∈ Finset.range (N + 1),
        (a + d / 2 + (j : ℚ) * d < a + k * d) ↔ (k ≤ j) := by
      intro k _
      constructor
      · intro hlt
        by_contra hc
        push_neg at hc
        have hkq : (j : ℚ) + 1 ≤ (k : ℚ) := by exact_mod_cast hc
        nlinarith
      · intro hle
        have hkq : (k : ℚ) ≤ (j : ℚ) := by exact_mod_cast hle
        nlinarith
    rw [Finset.filter_congr hiff, filter_le_range_card N j (by omega)]
  · rw [if_pos (by nlinarith)]
    have hiff : ∀ k ∈ Finset.range (N + 1),
        (a + (k : ℚ) * d ≤ a + d / 2 + j * d) ↔ (k ≤ j) := by
      intro k _
      constructor
      · intro hle
        by_contra hc
        push_neg at hc
        have hkq : (j : ℚ) + 1 ≤ (k : ℚ) := by exact_mod_cast hc
        nlinarith
      · intro hle
        have hkq : (k : ℚ) ≤ (j : ℚ) := by exact_mod_cast hle
        nlinarith
    rw [Finset.filter_congr hiff, filter_le_range_card N j (by omega)]

lemma rb_indexX (n : ℕ) (x0 y0 dx dy : ℚ) (hn : 2 ≤ n) (hdx : dx ≠ 0)
    (hxy : |dy| = |dx|) (m : ℕ) (hm : m < n * n) :
    indexX (rasterGrid n x0 y0 dx dy) m = ((m % n : ℕ) : ℤ) := by
  unfold indexX
  rw [rb_numPix, rb_xoAt n x0 y0 dx dy hn hdx hxy m hm,
    show xbins (rasterGrid n x0 y0 dx dy) = fun k : ℕ => x0 - dx / 2 + k * dx from
      funext (rb_xbins n x0 y0 dx dy hn hdx),
    show x0 + ((m % n : ℕ) : ℚ) * dx = x0 - dx / 2 + dx / 2 + ((m % n : ℕ) : ℚ) * dx
      by ring,
    digitize_uniform (x0 - dx / 2) dx hdx n (m % n) (Nat.mod_lt _ (by omega))]
  push_cast
  ring

lemma rb_indexY (n : ℕ) (x0 y0 dx dy : ℚ) (hn : 2 ≤ n) (hdx : dx ≠ 0)
    (hxy : |dy| = |dx|) (m : ℕ) (hm : m < n * n) :
    indexY (rasterGrid n x0 y0 dx dy) m = ((m / n : ℕ) : ℤ) := by
  unfold indexY
  rw [rb_numPix, rb_yoAt n x0 y0 dx dy hn hdx hxy m hm,
    show ybins (rasterGrid n x0 y0 dx dy) = fun k : ℕ => y0 - dy / 2 + k * dy from
      funext (rb_ybins n x0 y0 dx dy hn hdx hxy),
    show y0 + ((m / n : ℕ) : ℚ) * dy = y0 - dy / 2 + dy / 2 + ((m / n : ℕ) : ℚ) * dy
      by ring,
    digitize_uniform (y0 - dy / 2) dy (rb_dy_ne dx dy hdx hxy) n (m / n)
      (Nat.div_lt_of_lt_mul (by omega))]
  push_cast
  ring

lemma rb_index1 (n : ℕ) (x0 y0 dx dy : ℚ) (hn : 2 ≤ n) (hdx : dx ≠ 0)
    (hxy : |dy| = |dx|) (m : ℕ) (hm : m < n * n) :
    index1 (rasterGrid n x0 y0 dx dy) m = (m : ℤ) := by
  unfold index1
  rw [rb_indexX n x0 y0 dx dy hn hdx hxy m hm, rb_indexY n x0 y0 dx dy hn hdx hxy m hm,
    rb_numPix]
  have h := Nat.mod_add_div' m n
  exact_mod_cast h

lemma pyGet_natCast (f : ℕ → ℚ) (size m : ℕ) (hm : m < size) :
    pyGet f size (m : ℤ) = f m := by
  unfold pyGet
  rw [Int.emod_eq_of_lt (by positivity) (by exact_mod_cast hm)]
  simp

lemma rb_dxAt (n : ℕ) (x0 y0 dx dy : ℚ) (hn : 2 ≤ n) (hdx : dx ≠ 0)
    (hxy : |dy| = |dx|) (m : ℕ) (hm : m < n * n) :
    dxAt (rasterGrid n x0 y0 dx dy) m = 0 := by
  unfold dxAt
  rw [rb_index1 n x0 y0 dx dy hn hdx hxy m hm, rb_sizeIn,
    pyGet_natCast _ _ _ hm, rb_xin, rb_xoAt n x0 y0 dx dy hn hdx hxy m hm]
  ring

lemma rb_dyAt (n : ℕ) (x0 y0 dx dy : ℚ) (hn : 2 ≤ n) (hdx : dx ≠ 0)
    (hxy : |dy| = |dx|) (m : ℕ) (hm : m < n * n) :
    dyAt (rasterGrid n x0 y0 dx dy) m = 0 := by
  unfold dyAt
  rw [rb_index1 n x0 y0 dx dy hn hdx hxy m hm, rb_sizeIn,
    pyGet_natCast _ _ _ hm, rb_yin, rb_yoAt n x0 y0 dx dy hn hdx hxy m hm]
  ring

lemma qsign_zero : qsign 0 = 0 := by simp [qsign]

lemma rb_colRaw (n : ℕ) (x0 y0 dx dy : ℚ) (hn : 2 ≤ n) (hdx : dx ≠ 0)
    (hxy : |dy| = |dx|) (r m : ℕ) (hm : m < n * n) :
    colRaw (rasterGrid n x0 y0 dx dy) r m = (m : ℤ) := by
  have h1 := rb_index1 n x0 y0 dx dy hn hdx hxy m hm
  have h2 : index2 (rasterGrid n x0 y0 dx dy) m = (m : ℤ) := by
    unfold index2
    rw [rb_dxAt n x0 y0 dx dy hn hdx hxy m hm, qsign_zero, mul_zero, add_zero, h1]
  have h3 : index3 (rasterGrid n x0 y0 dx dy) m = (m : ℤ) := by
    unfold index3
    rw [rb_dyAt n x0 y0 dx dy hn hdx hxy m hm, qsign_zero, mul_zero, zero_mul, add_zero, h1]
  have h4 : index4 (rasterGrid n x0 y0 dx dy) m = (m : ℤ) := by
    unfold index4
    rw [rb_dyAt n x0 y0 dx dy hn hdx hxy m hm, qsign_zero, mul_zero, zero_mul, add_zero, h2]
  unfold colRaw
  split_ifs
  · exact h1
  · exact h2
  · exact h3
  · exact h4

lemma rb_maskAt (n : ℕ) (x0 y0 dx dy : ℚ) (hn : 2 ≤ n) (hdx : dx ≠ 0)
    (hxy : |dy| = |dx|) (r m : ℕ) (hm : m < n * n) :
    maskAt (rasterGrid n x0 y0 dx dy) r m = true := by
  unfold maskAt
  split_ifs with h
  · rfl
  · rw [rb_colRaw n x0 y0 dx dy hn hdx hxy r m hm]
    unfold maxIndex
    rw [rb_sizeIn]
    rw [decide_eq_false (by omega : ¬((m : ℤ) < 0)),
      decide_eq_false (by omega : ¬(((n * n : ℕ) : ℤ) - 1 < (m : ℤ)))]
    rfl

lemma rb_colM (n : ℕ) (x0 y0 dx dy : ℚ) (hn : 2 ≤ n) (hdx : dx ≠ 0)
    (hxy : |dy| = |dx|) (r m : ℕ) (hm : m < n * n) :
    colM (rasterGrid n x0 y0 dx dy) r m = (m : ℤ) := by
  unfold colM
  rw [rb_maskAt n x0 y0 dx dy hn hdx hxy r m hm, if_pos rfl]
  exact rb_colRaw n x0 y0 dx dy hn hdx hxy r m hm

lemma rb_weightAt (n : ℕ) (x0 y0 dx dy : ℚ) (hn : 2 ≤ n) (hdx : dx ≠ 0)
    (hxy : |dy| = |dx|) (r m : ℕ) (hm : m < n * n) :
    weightAt (rasterGrid n x0 y0 dx dy) r m = 1 := by
  have hdist : distX (rasterGrid n x0 y0 dx dy) r m = 0 := by
    unfold distX
    rw [rb_colM n x0 y0 dx dy hn hdx hxy r m hm, rb_sizeIn, pyGet_natCast _ _ _ hm,
      rb_xin, rb_xoAt n x0 y0 dx dy hn hdx hxy m hm,
      show x0 + ((m % n : ℕ) : ℚ) * dx - (x0 + ((m % n : ℕ) : ℚ) * dx) = 0 by ring,
      zero_div]
  have hdist2 : distY (rasterGrid n x0 y0 dx dy) r m = 0 := by
    unfold distY
    rw [rb_colM n x0 y0 dx dy hn hdx hxy r m hm, rb_sizeIn, pyGet_natCast _ _ _ hm,
      rb_yin, rb_yoAt n x0 y0 dx dy hn hdx hxy m hm,
      show y0 + ((m / n : ℕ) : ℚ) * dy - (y0 + ((m / n : ℕ) : ℚ) * dy) = 0 by ring,
      zero_div]
  unfold weightAt
  rw [hdist, hdist2]
  norm_num

lemma rb_weightN (n : ℕ) (x0 y0 dx dy : ℚ) (hn : 2 ≤ n) (hdx : dx ≠ 0)
    (hxy : |dy| = |dx|) (r m : ℕ) (hm : m < n * n) :
    weightN (rasterGrid n x0 y0 dx dy) r m = 1 / 4 := by
  have hnorm : normAt (rasterGrid n x0 y0 dx dy) m = 4 := by
    unfold normAt
    rw [Finset.sum_congr rfl (fun r2 _ => by
      rw [rb_maskAt n x0 y0 dx dy hn hdx hxy r2 m hm, if_pos rfl,
        rb_weightAt n x0 y0 dx dy hn hdx hxy r2 m hm])]
    simp
  unfold weightN
  rw [rb_weightAt n x0 y0 dx dy hn hdx hxy r m hm, hnorm]

lemma rb_opEntry (n : ℕ) (x0 y0 dx dy : ℚ) (hn : 2 ≤ n) (hdx : dx ≠ 0)
    (hxy : |dy| = |dx|) (p q : ℕ) (hp : p < n * n) (hq : q < n * n) :
    opEntry (rasterGrid n x0 y0 dx dy) p q = if p = q then 1 else 0 := by
  unfold opEntry
  rw [rb_numPixOutSel n x0 y0 dx dy hn hdx hxy]
  have hinner : ∀ r ∈ Finset.range 4,
      (∑ m ∈ Finset.range (n * n),
        if maskAt (rasterGrid n x0 y0 dx dy) r m ∧ rowIdx (rasterGrid n x0 y0 dx dy) m = p
            ∧ colM (rasterGrid n x0 y0 dx dy) r m = (q : ℤ)
        then weightN (rasterGrid n x0 y0 dx dy) r m else 0)
      = if p = q then 1 / 4 else 0 := by
    intro r _
    have hsummand : ∀ m ∈ Finset.range (n * n),
        (if maskAt (rasterGrid n x0 y0 dx dy) r m ∧ rowIdx (rasterGrid n x0 y0 dx dy) m = p
            ∧ colM (rasterGrid n x0 y0 dx dy) r m = (q : ℤ)
          then weightN (rasterGrid n x0 y0 dx dy) r m else 0)
        = (if m = p ∧ m = q then (1 / 4 : ℚ) else 0) := by
      intro m hm
      have hm2 := Finset.mem_range.mp hm
      rw [rb_maskAt n x0 y0 dx dy hn hdx hxy r m hm2,
        rb_rowIdx n x0 y0 dx dy hn hdx hxy m hm2,
        rb_colM n x0 y0 dx dy hn hdx hxy r m hm2,
        rb_weightN n x0 y0 dx dy hn hdx hxy r m hm2]
      exact if_congr
        ⟨fun hand => ⟨hand.2.1, by exact_mod_cast hand.2.2⟩,
          fun hand => ⟨rfl, hand.1, by exact_mod_cast hand.2⟩⟩ rfl rfl
    rw [Finset.sum_congr rfl hsummand]
    by_cases hpq : p = q
    · subst hpq
      rw [if_pos rfl,
        Finset.sum_congr rfl (fun m _ =>
          if_congr (and_self_iff : m = p ∧ m = p ↔ m = p) rfl rfl),
        Finset.sum_ite_eq' (Finset.range (n * n)) p (fun _ => (1 / 4 : ℚ)),
        if_pos (Finset.mem_range.mpr hp)]
    · rw [if_neg hpq, Finset.sum_eq_zero]
      intro m _
      exact if_neg (fun hand => hpq (hand.1.symm.trans hand.2))
  rw [Finset.sum_congr rfl hinner]
  by_cases hpq : p = q
  · rw [if_pos hpq]
    simp only [if_pos hpq, Finset.sum_const, Finset.card_range]
    norm_num
  · rw [if_neg hpq]
    simp only [if_neg hpq]
    simp

/-- C6: for every square uniform raster grid (either axis direction, any
pixel size) used as both the input and the query grid -- all query points
then lying strictly inside the grid bounds -- the assembled bilinear sparse
operator is the identity: the total weight of each output point on its own
input pixel is 1, the weight on every other pixel is 0, and applying the
operator to any value vector returns that vector. -/
theorem C6_bilinear_identity (n : ℕ) (x0 y0 dx dy : ℚ)
    (hn : 2 ≤ n) (hdx : dx ≠ 0) (hxy : |dy| = |dx|) :
    (∀ p q, p < n * n → q < n * n →
      opEntry (rasterGrid n x0 y0 dx dy) p q = if p = q then 1 else 0)
    ∧ (∀ (v : ℕ → ℚ) (p : ℕ), p < n * n →
      opApply (rasterGrid n x0 y0 dx dy) v p = v p) := by
  refine ⟨fun p q hp hq => rb_opEntry n x0 y0 dx dy hn hdx hxy p q hp hq, ?_⟩
  intro v p hp
  unfold opApply
  rw [rb_sizeIn]
  rw [Finset.sum_eq_single p ?_ ?_]
  · rw [rb_opEntry n x0 y0 dx dy hn hdx hxy p p hp hp, if_pos rfl, one_mul]
  · intro b hb hbp
    rw [rb_opEntry n x0 y0 dx dy hn hdx hxy p b hp (Finset.mem_range.mp hb),
      if_neg (fun h => hbp h.symm), zero_mul]
  · intro hnp
    exact absurd (Finset.mem_range.mpr hp) hnp

/-- C6 witness: the 2×2 unit grid, where the operator fixes the value
vector `q ↦ q`. -/
theorem C6_bilinear_identity_witness :
    opEntry (rasterGrid 2 0 0 1 1) 0 0 = 1
    ∧ opEntry (rasterGrid 2 0 0 1 1) 0 1 = 0
    ∧ opApply (rasterGrid 2 0 0 1 1) (fun q => (q : ℚ)) 3 = 3 := by
  obtain ⟨h1, h2⟩ := C6_bilinear_identity 2 0 0 1 1 (by norm_num) (by norm_num) (by norm_num)
  refine ⟨?_, ?_, ?_⟩
  · rw [h1 0 0 (by norm_num) (by norm_num)]
    norm_num
  · rw [h1 0 1 (by norm_num) (by norm_num)]
    norm_num
  · rw [h2 (fun q => (q : ℚ)) 3 (by norm_num)]
    norm_num

end Herculens
